import Mathlib

/-!
# Verification of `safe` (panic interception facility)

Shallow embedding of `src/safe.go`.

The package state (`running`, `mut`, `handler`) becomes a record; the two
unbuffered channels `pending` and `done` carry no state of their own, a
transfer on them is a rendezvous between a sender and a receiver.  Listener
goroutines started by `Listen` are kept in the state with their program
counter.  The registered handler is user code: all that is modelled of a call
`handler(p)` is how it ends (`Handler.call`): it returns, it panics (which
kills the process, the call being made in the listener goroutine), or it
never returns (it loops, or it calls `Catch`, `Close`, `Register`, `Listen` or
`Done`, which block for ever while the exchange is in progress).  The start
and the return of each call are recorded in the log of events.

Two views of the same code are given:
* a sequential one, in which a single task calls the API (`Register`,
  `Listen`, `Catch`, `Done`, `Close`), each call being run to its end
  (return, panic, or blocking forever);
* an interleaving one (`Sys`, `step`), in which several tasks run `Catch`
  concurrently, one program point at a time.
-/

namespace Safe

/-! ## Values of type `interface{}` -/

/-- Dynamic values that can be stored in a Go `interface{}`.  The constructor
`int32` is Go's `rune`; `other` stands for any further dynamic type. -/
inductive Value where
  | nil
  | string (s : String)
  | int (n : Int)
  | int32 (n : Int)
  | bool (b : Bool)
  | intSlice (l : List Int)
  | stringMap (l : List (String × String))
  | other (typeName : String) (repr : String)
  deriving DecidableEq

/-- The rune constant `'Q'` (code point 81) boxed in an `interface{}`. -/
def runeQ : Value := Value.int32 81

/-- Go's `p == nil` for an interface value. -/
def Value.isNil (p : Value) : Bool := decide (p = Value.nil)

/-- Go's `p == 'Q'`: true exactly for the dynamic type `int32` with value 81. -/
def Value.isQ (p : Value) : Bool := decide (p = runeQ)

/-! ## Handlers -/

/-- How a call `handler(p)` made by the listener (safe.go line 102) ends.
* `returns`: the handler returns normally;
* `panics`: the handler panics; nothing recovers the panic in the listener
  goroutine, the process dies;
* `hangs`: the handler never returns: it loops for ever, or it calls a
  function of the package (`Catch`, `Close`, `Register` and `Listen` wait for
  the mutex that the pending `Catch` holds, `Done` waits for a completion that
  only the listener sends). -/
inductive Effect where
  | returns
  | panics
  | hangs
  deriving DecidableEq

/-- Values of the Go type `Handler` (`func(interface{})`), nil excluded:
`Handler.call h p` tells how the call `h(p)` ends.  The handler is arbitrary
user code; a statement that needs the call to return says so in a hypothesis
`Handler.call h p = Effect.returns`. -/
class Handler (H : Type) where
  call : H → Value → Effect

/-- Handlers named by a number, used in examples: each of them returns on
every payload. -/
instance : Handler Nat where
  call := fun _ _ => Effect.returns

/-- Two faulty handlers, used in examples: one panics on every payload, the
other calls `Catch` again from inside the handler. -/
inductive Faulty where
  | panicking
  | reentrant
  deriving DecidableEq

/-- How the calls of the faulty handlers end. -/
instance : Handler Faulty where
  call := fun h _ =>
    match h with
    | Faulty.panicking => Effect.panics
    | Faulty.reentrant => Effect.hangs

/-! ## Package state -/

/-- Program counter of a listener goroutine (the `go func()` of `Listen`).
* `waiting`: blocked at `p := <-pending` (line 88);
* `got p`: has received `p`, about to run lines 91-102;
* `handling h p`: inside the call `handler(p)` (line 102);
* `notify quit`: blocked at `done <- struct{}{}`; `quit` tells whether the
  goroutine returns afterwards (line 98) or loops (lines 92 and 103). -/
inductive Pc (H : Type) where
  | waiting
  | got (p : Value)
  | handling (h : H) (p : Value)
  | notify (quit : Bool)
  deriving DecidableEq

/-- Observable events, in the order they happen.
* `spawn h`: `Listen` started a listener goroutine while `handler` held `h`;
* `recv p`: a listener received `p` from `pending`;
* `call h p` / `back h p`: a listener entered / left the call `handler(p)`,
  `h` being the value of `handler` at the call;
* `signal`: a completion went through `done`;
* `quit`: a listener goroutine returned. -/
inductive Event (H : Type) where
  | spawn (h : Option H)
  | recv (p : Value)
  | call (h : H) (p : Value)
  | back (h : H) (p : Value)
  | signal
  | quit
  deriving DecidableEq

/-- Package-level variables of `safe.go` together with the live listener
goroutines and the log of events.  `handler = none` is the nil func. -/
structure State (H : Type) where
  running : Bool
  locked : Bool
  handler : Option H
  goroutines : List (Pc H)
  log : List (Event H)
  deriving DecidableEq

/-- State at program start: zero values, no goroutine. -/
def State.init (H : Type) : State H :=
  { running := false, locked := false, handler := none, goroutines := [], log := [] }

/-! ## Results of a call -/

/-- How a call made by a task ends.
* `ok a s`: it returns `a`;
* `panic msg s`: the calling task panics with `msg` (deferred calls have run);
* `blocked s`: the calling task blocks forever at a lock or channel operation;
* `fatal msg s`: the process dies of a runtime error raised by the code of
  the package (call of a nil handler, unlock of an unlocked mutex);
* `aborted s`: the process dies because the handler panicked. -/
inductive Result (H : Type) (α : Type) where
  | ok (a : α) (s : State H)
  | panic (msg : String) (s : State H)
  | blocked (s : State H)
  | fatal (msg : String) (s : State H)
  | aborted (s : State H)
  deriving DecidableEq

/-- Computations of a task over the package state. -/
def Go (H : Type) (α : Type) : Type := State H → Result H α

/-- Returns `a` without touching the state. -/
def Go.pure {H α : Type} (a : α) : Go H α := fun s => Result.ok a s

/-- Sequencing: `f` runs only when `m` has returned; a panic, a blocked task and
a dead process end the sequence. -/
def Go.bind {H α β : Type} (m : Go H α) (f : α → Go H β) : Go H β := fun s =>
  match m s with
  | Result.ok a s1 => f a s1
  | Result.panic msg s1 => Result.panic msg s1
  | Result.blocked s1 => Result.blocked s1
  | Result.fatal msg s1 => Result.fatal msg s1
  | Result.aborted s1 => Result.aborted s1

/-- Sequential composition of the statements of a Go function. -/
instance {H : Type} : Monad (Go H) where
  pure := Go.pure
  bind := Go.bind

/-- Go's `defer d` placed in front of `body`: `d` runs when `body` returns and
also when it panics; it does not run when the task never leaves `body`. -/
def deferring {H α : Type} (d : Go H Unit) (body : Go H α) : Go H α := fun s =>
  match body s with
  | Result.ok a s1 =>
    match d s1 with
    | Result.ok _ s2 => Result.ok a s2
    | Result.panic msg s2 => Result.panic msg s2
    | Result.blocked s2 => Result.blocked s2
    | Result.fatal msg s2 => Result.fatal msg s2
    | Result.aborted s2 => Result.aborted s2
  | Result.panic msg s1 =>
    match d s1 with
    | Result.ok _ s2 => Result.panic msg s2
    | Result.panic msg2 s2 => Result.panic msg2 s2
    | Result.blocked s2 => Result.blocked s2
    | Result.fatal msg2 s2 => Result.fatal msg2 s2
    | Result.aborted s2 => Result.aborted s2
  | Result.blocked s1 => Result.blocked s1
  | Result.fatal msg s1 => Result.fatal msg s1
  | Result.aborted s1 => Result.aborted s1

/-- The builtin `panic(msg)`. -/
def goPanic {H α : Type} (msg : String) : Go H α := fun s => Result.panic msg s

/-! ## Primitive operations -/

/-- Call of `mut.Lock()`: blocks while the mutex is held. -/
def lock {H : Type} : Go H Unit := fun s =>
  if s.locked then Result.blocked s else Result.ok () { s with locked := true }

/-- Call of `mut.Unlock()`: a fatal runtime error when the mutex is not held. -/
def unlock {H : Type} : Go H Unit := fun s =>
  if s.locked then Result.ok () { s with locked := false }
  else Result.fatal "sync: unlock of unlocked mutex" s

/-- Reads `running`. -/
def getRunning {H : Type} : Go H Bool := fun s => Result.ok s.running s

/-- Assigns `running`. -/
def setRunning {H : Type} (b : Bool) : Go H Unit := fun s =>
  Result.ok () { s with running := b }

/-- Reads `handler`. -/
def getHandler {H : Type} : Go H (Option H) := fun s => Result.ok s.handler s

/-- Assigns `handler`. -/
def setHandler {H : Type} (h : Option H) : Go H Unit := fun s =>
  Result.ok () { s with handler := h }

/-- A sender on `pending` meets a goroutine blocked at `p := <-pending`: the
first waiting goroutine receives `p`.  `none` when nobody is waiting. -/
def deliver {H : Type} (p : Value) : List (Pc H) → Option (List (Pc H))
  | [] => none
  | Pc.waiting :: gs => some (Pc.got p :: gs)
  | g :: gs => (deliver p gs).map (fun gs1 => g :: gs1)

/-- A receiver on `done` meets a goroutine blocked at `done <- struct{}{}`: the
first such goroutine proceeds, either returning (it leaves the list) or
looping back to `p := <-pending`.  The Boolean tells whether it returned. -/
def collect {H : Type} : List (Pc H) → Option (Bool × List (Pc H))
  | [] => none
  | Pc.notify true :: gs => some (true, gs)
  | Pc.notify false :: gs => some (false, Pc.waiting :: gs)
  | g :: gs => (collect gs).map (fun r => (r.1, g :: r.2))

/-- What a listener goroutine does next.
* `next g evs`: it moves to `g`, producing the events `evs`;
* `stuck`: it cannot move by itself: it is blocked on a channel, or inside a
  handler call that never returns;
* `nilCall`: it calls a nil handler, a runtime panic that kills the process;
* `raised g evs`: after the events `evs`, at `g`, the handler panics, which
  kills the process. -/
inductive Moved (H : Type) (α : Type) where
  | next (a : α) (evs : List (Event H))
  | stuck
  | nilCall
  | raised (a : α) (evs : List (Event H))

/-- One step of a listener goroutine (safe.go lines 88-103).  After the receipt
of `p`: nil and `'Q'` lead to the completion signal, any other payload to the
call `handler(p)`, `handler` being read at that moment.  Inside the call: what
happens is what `Handler.call` says. -/
def stepPc {H : Type} [Handler H] (handler : Option H) : Pc H → Moved H (Pc H)
  | Pc.got p =>
    if p.isNil then Moved.next (Pc.notify false) []
    else if p.isQ then Moved.next (Pc.notify true) []
    else
      match handler with
      | none => Moved.nilCall
      | some h => Moved.next (Pc.handling h p) [Event.call h p]
  | Pc.handling h p =>
    match Handler.call h p with
    | Effect.returns => Moved.next (Pc.notify false) [Event.back h p]
    | Effect.panics => Moved.raised (Pc.handling h p) []
    | Effect.hangs => Moved.stuck
  | Pc.waiting => Moved.stuck
  | Pc.notify _ => Moved.stuck

/-- Runs a listener goroutine until it cannot move by itself (two steps reach
`notify` from `got`). -/
def runPc {H : Type} [Handler H] (handler : Option H) (g : Pc H) : Moved H (Pc H) :=
  match stepPc handler g with
  | Moved.stuck => Moved.next g []
  | Moved.nilCall => Moved.nilCall
  | Moved.raised g1 e1 => Moved.raised g1 e1
  | Moved.next g1 e1 =>
    match stepPc handler g1 with
    | Moved.stuck => Moved.next g1 e1
    | Moved.nilCall => Moved.nilCall
    | Moved.raised g2 e2 => Moved.raised g2 (e1 ++ e2)
    | Moved.next g2 e2 => Moved.next g2 (e1 ++ e2)

/-- Runs every listener goroutine until it cannot move by itself. -/
def settle {H : Type} [Handler H] (handler : Option H) :
    List (Pc H) → Moved H (List (Pc H))
  | [] => Moved.next [] []
  | g :: gs =>
    match runPc handler g with
    | Moved.stuck => Moved.stuck
    | Moved.nilCall => Moved.nilCall
    | Moved.raised g1 e1 => Moved.raised (g1 :: gs) e1
    | Moved.next g1 e1 =>
      match settle handler gs with
      | Moved.stuck => Moved.stuck
      | Moved.nilCall => Moved.nilCall
      | Moved.raised gs1 e2 => Moved.raised (g1 :: gs1) (e1 ++ e2)
      | Moved.next gs1 e2 => Moved.next (g1 :: gs1) (e1 ++ e2)

/-- The statement `pending <- p` executed by a task: blocks forever when no
listener is waiting; otherwise a listener receives `p` and runs until it
blocks at `done <- struct{}{}`, or stays inside the handler, or the process
dies. -/
def send {H : Type} [Handler H] (p : Value) : Go H Unit := fun s =>
  match deliver p s.goroutines with
  | none => Result.blocked s
  | some gs =>
    match settle s.handler gs with
    | Moved.nilCall =>
      Result.fatal "invalid memory address or nil pointer dereference"
        { s with goroutines := gs, log := s.log ++ [Event.recv p] }
    | Moved.raised gs1 evs =>
      Result.aborted { s with goroutines := gs1, log := s.log ++ [Event.recv p] ++ evs }
    | Moved.stuck =>
      Result.ok () { s with goroutines := gs, log := s.log ++ [Event.recv p] }
    | Moved.next gs1 evs =>
      Result.ok () { s with goroutines := gs1, log := s.log ++ [Event.recv p] ++ evs }

/-- The statement `go func() { for { ... } }()` of `Listen`: the new goroutine
runs to `p := <-pending` and waits there. -/
def spawn {H : Type} : Go H Unit := fun s =>
  Result.ok () { s with goroutines := s.goroutines ++ [Pc.waiting],
                        log := s.log ++ [Event.spawn s.handler] }

/-! ## The API of `safe.go` -/

/-- Function `Done` (safe.go lines 130-132): the receive `<-done`. -/
def Done {H : Type} : Go H Unit := fun s =>
  match collect s.goroutines with
  | none => Result.blocked s
  | some (true, gs) =>
    Result.ok () { s with goroutines := gs, log := s.log ++ [Event.signal, Event.quit] }
  | some (false, gs) =>
    Result.ok () { s with goroutines := gs, log := s.log ++ [Event.signal] }

/-- Function `Close` (safe.go lines 135-148). -/
def Close {H : Type} [Handler H] : Go H Unit := do
  lock
  deferring unlock do
    if !(← getRunning) then
      pure ()
    else do
      send runeQ
      Done
      setRunning false

/-- Function `Register` (safe.go lines 49-67): the lock is released before
`Close` is called and taken again afterwards. -/
def Register {H : Type} [Handler H] (Panic : Option H) : Go H Bool := do
  lock
  let isRun ← getRunning
  unlock
  if isRun then
    Close
  lock
  setHandler Panic
  unlock
  pure true

/-- Function `Listen` (safe.go lines 71-111); the result is the error, `none`
for nil. -/
def Listen {H : Type} : Go H (Option String) := do
  lock
  deferring unlock do
    if (← getHandler).isNone then
      pure (some "safe: panic handler not set")
    else if (← getRunning) then
      pure (some "safe: package already running, close it first")
    else do
      spawn
      setRunning true
      pure none

/-- Function `Catch` (safe.go lines 116-127). -/
def Catch {H : Type} [Handler H] (p : Value) : Go H Unit := do
  lock
  deferring unlock do
    if !(← getRunning) then
      goPanic "safe: package not running, call safe.Register and safe.Listen() first"
    else do
      send p
      Done


/-! ## Sequential executions -/

/-- An API call of the single calling task. -/
inductive Op (H : Type) where
  | Register (h : Option H)
  | Listen
  | Catch (p : Value)
  | Close
  deriving DecidableEq

/-- State after a completed call: a call completes when it returns, or when it
panics in the calling task (the caller may recover, as `TestCatch` does).  A
call that blocks forever or kills the process does not complete. -/
def complete {H α : Type} : Result H α → Option (State H)
  | Result.ok _ s => some s
  | Result.panic _ s => some s
  | Result.blocked _ => none
  | Result.fatal _ _ => none
  | Result.aborted _ => none

/-- Runs one API call to completion. -/
def applyOp {H : Type} [Handler H] : Op H → State H → Option (State H)
  | Op.Register h, s => complete (Register h s)
  | Op.Listen, s => complete (Listen s)
  | Op.Catch p, s => complete (Catch p s)
  | Op.Close, s => complete (Close s)

/-- Runs a sequence of API calls, each to completion, from state `s`. -/
def runOps {H : Type} [Handler H] : List (Op H) → State H → Option (State H)
  | [], s => some s
  | op :: ops, s =>
    match applyOp op s with
    | none => none
    | some s1 => runOps ops s1

/-- States reachable from program start by completed API calls. -/
def Reachable {H : Type} [Handler H] (s : State H) : Prop :=
  ∃ ops : List (Op H), runOps ops (State.init H) = some s

/-- Number of calls of the handler recorded in a log. -/
def callCount {H : Type} : List (Event H) → Nat
  | [] => 0
  | Event.call _ _ :: es => callCount es + 1
  | _ :: es => callCount es

/-- The value of `handler` after a completed call, given its value before:
only `Register` stores a new one. -/
def Op.newHandler {H : Type} (op : Op H) (old : Option H) : Option H :=
  match op with
  | Op.Register h => h
  | _ => old

/-- The handler installed by the most recent `Register` call of a sequence
(`none` when there is no such call or when it installed nil). -/
def lastRegistered {H : Type} (ops : List (Op H)) : Option H :=
  ops.foldl (fun acc o => o.newHandler acc) none

/-- The value `handler` held when the most recent listener goroutine was
started, read off a log. -/
def lastSpawn {H : Type} (tr : List (Event H)) : Option (Option H) :=
  tr.foldl (fun acc e => match e with | Event.spawn h => some h | _ => acc) none

/-- The mutex is free and every listener goroutine is blocked at
`p := <-pending`: the state between two calls of a single task. -/
def Idle {H : Type} (s : State H) : Prop :=
  s.locked = false ∧ ∀ g ∈ s.goroutines, g = Pc.waiting

/-- Idle, with the running flag set and a listener goroutine alive. -/
def Live {H : Type} (s : State H) : Prop :=
  Idle s ∧ s.running = true ∧ s.goroutines ≠ []

/-- Invariant of the states reached by completed calls of a single task: the
state is idle, at most one listener goroutine is alive, none is alive while
the running flag is clear, the handler is set while the flag is set, and a
live listener was started under the handler that is stored now. -/
def Inv {H : Type} (s : State H) : Prop :=
  Idle s ∧ s.goroutines.length ≤ 1 ∧ (s.running = false → s.goroutines = []) ∧
    (s.running = true → s.handler ≠ none) ∧
    (s.goroutines ≠ [] → lastSpawn s.log = some s.handler)

/-- The invariant `Inv` together with the agreement of the running flag and
the listener: the flag is set only while a listener goroutine waits. -/
def Coherent {H : Type} (s : State H) : Prop :=
  Inv s ∧ (s.running = true → s.goroutines = [Pc.waiting])

/-! ## Concurrent calls of `Catch`: interleaving semantics -/

/-- Program counter of a task executing `Catch(p)`.
* `start`: before `mut.Lock()` (line 117);
* `check`: holds the mutex, about to test `running` (line 121);
* `sending`: about to execute `pending <- p` (line 125);
* `awaiting`: inside `Done()`, at `<-done` (line 131);
* `leaving`: returning, the deferred `mut.Unlock()` is about to run;
* `unwinding`: panicking, the deferred `mut.Unlock()` is about to run;
* `returned`, `panicked`: the call is over. -/
inductive CPc where
  | start
  | check
  | sending
  | awaiting
  | leaving
  | unwinding
  | returned
  | panicked
  deriving DecidableEq

/-- A task executing `Catch(p)`. -/
structure Task where
  p : Value
  pc : CPc
  deriving DecidableEq

/-- The package state together with the tasks that call `Catch`; `dead` is set
once the process has died (fatal runtime error, or panic of the handler). -/
structure Sys (H : Type) where
  st : State H
  tasks : List Task
  dead : Bool
  deriving DecidableEq

/-- Who makes the next step: the `i`-th calling task or the `j`-th listener
goroutine. -/
inductive Tid where
  | task (i : Nat)
  | listener (j : Nat)
  deriving DecidableEq

/-- One step of a task inside `Catch`, from its program counter.  The result is
`ok` with the task after the step, `blocked` when the task cannot move now
(mutex held, nobody at the other end of the channel, or call over), `fatal`
on a fatal runtime error. -/
def stepTask {H : Type} (t : Task) : Go H Task :=
  match t.pc with
  | CPc.start => do
    lock
    pure { t with pc := CPc.check }
  | CPc.check => do
    if !(← getRunning) then
      pure { t with pc := CPc.unwinding }
    else
      pure { t with pc := CPc.sending }
  | CPc.sending => fun s =>
    match deliver t.p s.goroutines with
    | none => Result.blocked s
    | some gs =>
      Result.ok { t with pc := CPc.awaiting }
        { s with goroutines := gs, log := s.log ++ [Event.recv t.p] }
  | CPc.awaiting => do
    Done
    pure { t with pc := CPc.leaving }
  | CPc.leaving => do
    unlock
    pure { t with pc := CPc.returned }
  | CPc.unwinding => do
    unlock
    pure { t with pc := CPc.panicked }
  | CPc.returned => fun s => Result.blocked s
  | CPc.panicked => fun s => Result.blocked s

/-- One step of listener goroutine `j`: `none` when it cannot move by itself,
otherwise the state after the step, `fatal` on a call of a nil handler,
`aborted` when the handler panics. -/
def stepListener {H : Type} [Handler H] (j : Nat) (s : State H) : Option (Result H Unit) :=
  match s.goroutines[j]? with
  | none => none
  | some g =>
    match stepPc s.handler g with
    | Moved.stuck => none
    | Moved.nilCall =>
      some (Result.fatal "invalid memory address or nil pointer dereference" s)
    | Moved.raised g1 evs =>
      some (Result.aborted { s with goroutines := s.goroutines.set j g1,
                                    log := s.log ++ evs })
    | Moved.next g1 evs =>
      some (Result.ok () { s with goroutines := s.goroutines.set j g1, log := s.log ++ evs })

/-- One step of the system made by `t`; `none` when `t` cannot move. -/
def step {H : Type} [Handler H] (t : Tid) (σ : Sys H) : Option (Sys H) :=
  if σ.dead then none
  else
    match t with
    | Tid.task i =>
      match σ.tasks[i]? with
      | none => none
      | some tk =>
        match stepTask tk σ.st with
        | Result.ok tk1 s1 => some { σ with st := s1, tasks := σ.tasks.set i tk1 }
        | Result.fatal _ s1 => some { σ with st := s1, dead := true }
        | _ => none
    | Tid.listener j =>
      match stepListener j σ.st with
      | some (Result.ok _ s1) => some { σ with st := s1 }
      | some (Result.fatal _ s1) => some { σ with st := s1, dead := true }
      | some (Result.aborted s1) => some { σ with st := s1, dead := true }
      | _ => none

/-- Runs a schedule: each entry names who is to move; an entry naming somebody
who cannot move is skipped. -/
def run {H : Type} [Handler H] (sched : List Tid) (σ : Sys H) : Sys H :=
  sched.foldl (fun σ1 t => (step t σ1).getD σ1) σ

/-- A running listener with handler `h`, and one task per payload of `ps`, each
about to call `Catch`; the log starts empty, it records this phase only. -/
def Sys.start {H : Type} (h : H) (ps : List Value) : Sys H :=
  { st := { running := true, locked := false, handler := some h, goroutines := [Pc.waiting],
            log := [] },
    tasks := ps.map (fun p => { p := p, pc := CPc.start }),
    dead := false }

/-- Steps a task still has to make, the listener's share of the exchange
left out. -/
def CPc.weight : CPc → Nat
  | CPc.start => 7
  | CPc.check => 6
  | CPc.sending => 5
  | CPc.awaiting => 2
  | CPc.leaving => 1
  | CPc.unwinding => 1
  | CPc.returned => 0
  | CPc.panicked => 0

/-- Steps a listener goroutine makes before it blocks on a channel. -/
def Pc.weight {H : Type} : Pc H → Nat
  | Pc.waiting => 0
  | Pc.got _ => 2
  | Pc.handling _ _ => 1
  | Pc.notify _ => 0

/-- Upper bound on the number of steps the system can still make. -/
def remaining {H : Type} (σ : Sys H) : Nat :=
  (σ.tasks.map (fun t => t.pc.weight)).sum + (σ.st.goroutines.map Pc.weight).sum +
    (if σ.dead then 0 else 1)

/-- One event of the scan `inCall`. -/
def inCallStep {H : Type} (acc : Option Bool) (e : Event H) : Option Bool :=
  match acc, e with
  | some false, Event.call _ _ => some true
  | some true, Event.call _ _ => none
  | some true, Event.back _ _ => some false
  | some false, Event.back _ _ => none
  | a, _ => a

/-- Scans a log and tells whether a handler call is in progress at its end;
`none` when a call started while another was in progress, or a return
happened outside a call. -/
def inCall {H : Type} (log : List (Event H)) : Option Bool :=
  log.foldl inCallStep (some false)

/-- Every task has returned from `Catch`. -/
def allReturned {H : Type} (σ : Sys H) : Prop :=
  ∀ t ∈ σ.tasks, t.pc = CPc.returned

/-- Number of tasks that have returned from `Catch` and whose payload
satisfies `P`. -/
def returnedTasks {H : Type} (P : Value → Bool) (σ : Sys H) : Nat :=
  σ.tasks.countP (fun t => decide (t.pc = CPc.returned) && P t.p)

/-- Number of handler calls in a log whose argument satisfies `P`. -/
def calls {H : Type} (P : Value → Bool) (log : List (Event H)) : Nat :=
  log.countP (fun e => match e with | Event.call _ p => P p | _ => false)

/-- Number of handler returns in a log whose argument satisfies `P`. -/
def backs {H : Type} (P : Value → Bool) (log : List (Event H)) : Nat :=
  log.countP (fun e => match e with | Event.back _ p => P p | _ => false)

/-- A task that does not hold the mutex: not yet in `Catch`, or back from it. -/
def Rest (x : Task) : Prop := x.pc = CPc.start ∨ x.pc = CPc.returned

/-- The position of the listener agrees with the program counter of the task
that holds the mutex. -/
def phaseOK {H : Type} (h : H) (t : Task) (g : Pc H) : Prop :=
  match t.pc, g with
  | CPc.check, Pc.waiting => True
  | CPc.sending, Pc.waiting => True
  | CPc.awaiting, Pc.got p => p = t.p
  | CPc.awaiting, Pc.handling h1 p => h1 = h ∧ p = t.p
  | CPc.awaiting, Pc.notify q => q = false
  | CPc.leaving, Pc.waiting => True
  | _, _ => False

/-- The handler has been entered for the payload of the task that holds the
mutex. -/
def called {H : Type} (t : Task) (g : Pc H) : Bool :=
  match t.pc, g with
  | CPc.awaiting, Pc.handling _ _ => true
  | CPc.awaiting, Pc.notify _ => true
  | CPc.leaving, _ => true
  | _, _ => false

/-- The handler has returned for the payload of the task that holds the
mutex. -/
def handled {H : Type} (t : Task) (g : Pc H) : Bool :=
  match t.pc, g with
  | CPc.awaiting, Pc.notify _ => true
  | CPc.leaving, _ => true
  | _, _ => false

/-- The goroutine is inside the handler. -/
def Pc.isHandling {H : Type} : Pc H → Bool
  | Pc.handling _ _ => true
  | _ => false

/-- Invariant of the interleaved executions from `Sys.start h ps`: the process
is alive, the flag and the handler are as at the start, the tasks carry the
payloads `ps`, every handler call is a call of `h`; and either the mutex is
free, the listener waits, every task is at rest and the log has one call and
one return per returned task, or one task holds the mutex, the others are at
rest, the single listener is where that task's exchange stands and the log
has one call (return) more when that task's payload has been (has been
dealt with) by the handler. -/
def Good {H : Type} (h : H) (ps : List Value) (σ : Sys H) : Prop :=
  σ.dead = false ∧ σ.st.running = true ∧ σ.st.handler = some h ∧
  σ.tasks.map (fun t => t.p) = ps ∧
  (∀ h1 v, Event.call h1 v ∈ σ.st.log → h1 = h) ∧
  ((σ.st.locked = false ∧ σ.st.goroutines = [Pc.waiting] ∧
      (∀ (j : Nat) (x : Task), σ.tasks[j]? = some x → Rest x) ∧
      inCall σ.st.log = some false ∧
      ∀ P, calls P σ.st.log = returnedTasks P σ ∧ backs P σ.st.log = returnedTasks P σ) ∨
   (σ.st.locked = true ∧ ∃ (i : Nat) (t : Task) (g : Pc H), σ.tasks[i]? = some t ∧
      (∀ (j : Nat) (x : Task), σ.tasks[j]? = some x → j ≠ i → Rest x) ∧
      σ.st.goroutines = [g] ∧ phaseOK h t g ∧
      inCall σ.st.log = some g.isHandling ∧
      ∀ P, calls P σ.st.log = returnedTasks P σ + (if called t g && P t.p then 1 else 0) ∧
        backs P σ.st.log = returnedTasks P σ + (if handled t g && P t.p then 1 else 0)))

/-! ## Basic facts -/

section Basic

variable {H : Type} [Handler H]

omit [Handler H] in
theorem bind_eq (m : Go H α) (f : α → Go H β) (s : State H) :
    (m >>= f) s = Go.bind m f s := rfl

omit [Handler H] in
theorem pure_eq (a : α) (s : State H) : (pure a : Go H α) s = Result.ok a s := rfl

theorem Catch_stopped (p : Value) (s : State H) (hl : s.locked = false)
    (hr : s.running = false) :
    Catch p s = Result.panic
      "safe: package not running, call safe.Register and safe.Listen() first" s := by
  cases s
  simp_all [Catch, bind_eq, Go.bind, lock, deferring, getRunning, goPanic, unlock]


theorem settle_waiting (h : Option H) (gs : List (Pc H))
    (hg : ∀ g ∈ gs, g = Pc.waiting) : settle h gs = Moved.next gs [] := by
  induction gs with
  | nil => rfl
  | cons g gs ih =>
    have h1 : g = Pc.waiting := hg g (List.mem_cons_self _ _)
    have h2 : ∀ x ∈ gs, x = Pc.waiting := fun x hx => hg x (List.mem_cons_of_mem _ hx)
    subst h1
    simp [settle, runPc, stepPc, ih h2]

omit [Handler H] in
theorem collect_waiting (gs : List (Pc H)) (hg : ∀ g ∈ gs, g = Pc.waiting) :
    collect gs = none := by
  induction gs with
  | nil => rfl
  | cons g gs ih =>
    have h1 : g = Pc.waiting := hg g (List.mem_cons_self _ _)
    have h2 : ∀ x ∈ gs, x = Pc.waiting := fun x hx => hg x (List.mem_cons_of_mem _ hx)
    subst h1
    simp [collect, ih h2]

omit [Handler H] in
theorem waiting_cons (gs : List (Pc H)) (hg : ∀ g ∈ gs, g = Pc.waiting) (hne : gs ≠ []) :
    gs = Pc.waiting :: gs.tail ∧ ∀ g ∈ gs.tail, g = Pc.waiting := by
  cases gs with
  | nil => exact absurd rfl hne
  | cons g gs =>
    have h1 : g = Pc.waiting := hg g (List.mem_cons_self _ _)
    subst h1
    exact ⟨rfl, fun x hx => hg x (List.mem_cons_of_mem _ hx)⟩

omit [Handler H] in
theorem Listen_eq (s : State H) (hl : s.locked = false) :
    Listen s =
      if s.handler.isNone then Result.ok (some "safe: panic handler not set") s
      else if s.running then
        Result.ok (some "safe: package already running, close it first") s
      else Result.ok none { s with running := true,
                                   goroutines := s.goroutines ++ [Pc.waiting],
                                   log := s.log ++ [Event.spawn s.handler] } := by
  cases s with
  | mk r l h gs tr =>
    cases h <;> cases r <;>
      simp_all [Listen, bind_eq, pure_eq, Go.bind, lock, deferring, getRunning, getHandler,
        unlock, spawn, setRunning]

theorem Catch_live (p : Value) (s : State H) (hs : Live s) :
    Catch p s =
      if p.isNil then
        Result.ok () { s with log := s.log ++ [Event.recv p, Event.signal] }
      else if p.isQ then
        Result.ok () { s with goroutines := s.goroutines.tail,
                              log := s.log ++ [Event.recv p, Event.signal, Event.quit] }
      else
        match s.handler with
        | none =>
          Result.fatal "invalid memory address or nil pointer dereference"
            { s with locked := true, goroutines := Pc.got p :: s.goroutines.tail,
                     log := s.log ++ [Event.recv p] }
        | some h =>
          match Handler.call h p with
          | Effect.returns =>
            Result.ok () { s with log := s.log ++
              [Event.recv p, Event.call h p, Event.back h p, Event.signal] }
          | Effect.panics =>
            Result.aborted
              { s with locked := true, goroutines := Pc.handling h p :: s.goroutines.tail,
                       log := s.log ++ [Event.recv p, Event.call h p] }
          | Effect.hangs =>
            Result.blocked
              { s with locked := true, goroutines := Pc.handling h p :: s.goroutines.tail,
                       log := s.log ++ [Event.recv p, Event.call h p] } := by
  obtain ⟨⟨hl, hg⟩, hr, hne⟩ := hs
  obtain ⟨hc, ht⟩ := waiting_cons s.goroutines hg hne
  cases s with
  | mk r l h gs tr =>
    simp only at hl hr hc ht
    subst hl hr
    rw [hc]
    by_cases h1 : p.isNil = true
    · simp [Catch, bind_eq, pure_eq, Go.bind, lock, deferring, getRunning, unlock, send, Done,
        deliver, settle, runPc, stepPc, collect, settle_waiting _ _ ht, h1]
    · by_cases h2 : p.isQ = true
      · simp [Catch, bind_eq, pure_eq, Go.bind, lock, deferring, getRunning, unlock, send, Done,
          deliver, settle, runPc, stepPc, collect, settle_waiting _ _ ht, h1, h2]
      · cases h with
        | none =>
          simp [Catch, bind_eq, pure_eq, Go.bind, lock, deferring, getRunning, unlock, send,
            Done, deliver, settle, runPc, stepPc, collect, settle_waiting _ _ ht, h1, h2]
        | some h0 =>
          cases hcall : Handler.call h0 p <;>
          simp [Catch, bind_eq, pure_eq, Go.bind, lock, deferring, getRunning, unlock, send,
            Done, deliver, settle, runPc, stepPc, collect, settle_waiting _ _ ht,
            collect_waiting _ ht, h1, h2, hcall]

theorem Close_stopped (s : State H) (hl : s.locked = false) (hr : s.running = false) :
    Close s = Result.ok () s := by
  cases s
  simp_all [Close, bind_eq, pure_eq, Go.bind, lock, deferring, getRunning, unlock]

theorem Close_live (s : State H) (hs : Live s) :
    Close s = Result.ok ()
      { s with running := false, goroutines := s.goroutines.tail,
               log := s.log ++ [Event.recv runeQ, Event.signal, Event.quit] } := by
  obtain ⟨⟨hl, hg⟩, hr, hne⟩ := hs
  obtain ⟨hc, ht⟩ := waiting_cons s.goroutines hg hne
  cases s with
  | mk r l h gs tr =>
    simp only at hl hr hc ht
    subst hl hr
    rw [hc]
    simp [Close, bind_eq, pure_eq, Go.bind, lock, deferring, getRunning, unlock, send, Done,
      deliver, settle, runPc, stepPc, collect, settle_waiting _ _ ht, setRunning, runeQ,
      Value.isNil, Value.isQ]

theorem Close_dead (s : State H) (hl : s.locked = false) (hr : s.running = true)
    (hg : s.goroutines = []) :
    Close s = Result.blocked { s with locked := true } := by
  cases s
  simp_all [Close, bind_eq, pure_eq, Go.bind, lock, deferring, getRunning, unlock, send,
    deliver]

theorem Register_stopped (h : Option H) (s : State H) (hl : s.locked = false)
    (hr : s.running = false) :
    Register h s = Result.ok true { s with handler := h } := by
  cases s
  simp_all [Register, bind_eq, pure_eq, Go.bind, lock, getRunning, unlock, setHandler]

theorem Register_live (h : Option H) (s : State H) (hs : Live s) :
    Register h s = Result.ok true
      { s with running := false, handler := h, goroutines := s.goroutines.tail,
               log := s.log ++ [Event.recv runeQ, Event.signal, Event.quit] } := by
  have hc := Close_live s hs
  obtain ⟨⟨hl, hg⟩, hr, hne⟩ := hs
  cases s with
  | mk r l hd gs tr =>
    simp only at hl hr hc
    subst hl hr
    simp [Register, bind_eq, pure_eq, Go.bind, lock, getRunning, unlock, setHandler, hc]

theorem Register_dead (h : Option H) (s : State H) (hl : s.locked = false)
    (hr : s.running = true) (hg : s.goroutines = []) :
    Register h s = Result.blocked { s with locked := true } := by
  have hc := Close_dead s hl hr hg
  cases s with
  | mk r l hd gs tr =>
    simp only at hl hr hc
    subst hl hr
    simp [Register, bind_eq, pure_eq, Go.bind, lock, getRunning, unlock, setHandler, hc]

theorem Catch_dead (p : Value) (s : State H) (hl : s.locked = false) (hr : s.running = true)
    (hg : s.goroutines = []) :
    Catch p s = Result.blocked { s with locked := true } := by
  cases s
  simp_all [Catch, bind_eq, pure_eq, Go.bind, lock, deferring, getRunning, unlock, send,
    deliver]

/-! ## Invariant of sequential executions -/

omit [Handler H] in
theorem lastSpawn_append (tr evs : List (Event H)) :
    lastSpawn (tr ++ evs) =
      evs.foldl (fun acc e => match e with | Event.spawn h => some h | _ => acc)
        (lastSpawn tr) := by
  simp [lastSpawn, List.foldl_append]

omit [Handler H] in
theorem Inv_init : Inv (State.init H) := by
  simp [Inv, Idle, State.init]

omit [Handler H] in
theorem Inv_cases (s : State H) (hi : Inv s) :
    (s.running = false ∧ s.goroutines = []) ∨
    (Live s ∧ s.goroutines = [Pc.waiting]) ∨
    (s.running = true ∧ s.goroutines = []) := by
  obtain ⟨⟨hl, hg⟩, hlen, hstop, -, -⟩ := hi
  cases hr : s.running with
  | false => exact Or.inl ⟨rfl, hstop hr⟩
  | true =>
    cases hgs : s.goroutines with
    | nil => exact Or.inr (Or.inr ⟨rfl, rfl⟩)
    | cons g gs =>
      refine Or.inr (Or.inl ?_)
      have hg1 : g = Pc.waiting := hg g (by simp [hgs])
      have hgs1 : gs = [] := by
        rw [hgs] at hlen
        simpa using hlen
      subst hg1 hgs1
      refine ⟨⟨⟨hl, hg⟩, hr, ?_⟩, rfl⟩
      simp [hgs]

/-- A completed call keeps the invariant, and only `Register` changes the
stored handler. -/
theorem applyOp_inv (op : Op H) (s s1 : State H) (hi : Inv s)
    (h : applyOp op s = some s1) :
    Inv s1 ∧ s1.handler = op.newHandler s.handler := by
  have hl : s.locked = false := hi.1.1
  have hgw := hi.1.2
  have hh := hi.2.2.2.1
  have hsp := hi.2.2.2.2
  rcases Inv_cases s hi with ⟨hr, hg⟩ | ⟨hlive, hg⟩ | ⟨hr, hg⟩
  · cases op with
    | Register h0 =>
      rw [applyOp, Register_stopped h0 s hl hr] at h
      simp only [complete, Option.some.injEq] at h
      subst h
      simp [Op.newHandler, Inv, Idle, hl, hr, hg]
    | Listen =>
      rw [applyOp, Listen_eq s hl] at h
      cases hhd : s.handler with
      | none =>
        simp [hhd, complete] at h
        subst h
        exact ⟨hi, by simp [Op.newHandler, *]⟩
      | some h0 =>
        simp [hhd, hr, complete] at h
        subst h
        simp [Op.newHandler, Inv, Idle, hl, hg, hhd, lastSpawn_append]
    | Catch p =>
      rw [applyOp, Catch_stopped p s hl hr] at h
      simp only [complete, Option.some.injEq] at h
      subst h
      exact ⟨hi, by simp [Op.newHandler, *]⟩
    | Close =>
      rw [applyOp, Close_stopped s hl hr] at h
      simp only [complete, Option.some.injEq] at h
      subst h
      exact ⟨hi, by simp [Op.newHandler, *]⟩
  · have hr : s.running = true := hlive.2.1
    cases op with
    | Register h0 =>
      rw [applyOp, Register_live h0 s hlive] at h
      simp only [complete, Option.some.injEq] at h
      subst h
      simp [Op.newHandler, Inv, Idle, hl, hg]
    | Listen =>
      rw [applyOp, Listen_eq s hl] at h
      cases hhd : s.handler with
      | none => exact absurd hhd (hh hr)
      | some h0 =>
        simp [hhd, hr, complete] at h
        subst h
        exact ⟨hi, by simp [Op.newHandler, *]⟩
    | Catch p =>
      rw [applyOp, Catch_live p s hlive] at h
      cases hhd : s.handler with
      | none => exact absurd hhd (hh hr)
      | some h0 =>
        have hsp1 := hsp (by simp [hg])
        by_cases h1 : p.isNil = true
        · simp [h1, complete] at h
          subst h
          simp [Op.newHandler, Inv, Idle, hl, hg, hhd, hr, lastSpawn_append, hsp1]
        · by_cases h2 : p.isQ = true
          · simp [h1, h2, complete] at h
            subst h
            simp [Op.newHandler, Inv, Idle, hl, hg, hhd, hr]
          · cases hcall : Handler.call h0 p with
            | returns =>
              simp [h1, h2, hhd, hcall, complete] at h
              subst h
              simp [Op.newHandler, Inv, Idle, hl, hg, hhd, hr, lastSpawn_append, hsp1]
            | panics => simp [h1, h2, hhd, hcall, complete] at h
            | hangs => simp [h1, h2, hhd, hcall, complete] at h
    | Close =>
      rw [applyOp, Close_live s hlive] at h
      simp only [complete, Option.some.injEq] at h
      subst h
      simp [Op.newHandler, Inv, Idle, hl, hg]
  · cases op with
    | Register h0 =>
      rw [applyOp, Register_dead h0 s hl hr hg] at h
      simp [complete] at h
    | Listen =>
      rw [applyOp, Listen_eq s hl] at h
      cases hhd : s.handler with
      | none => exact absurd hhd (hh hr)
      | some h0 =>
        simp [hhd, hr, complete] at h
        subst h
        exact ⟨hi, by simp [Op.newHandler, *]⟩
    | Catch p =>
      rw [applyOp, Catch_dead p s hl hr hg] at h
      simp [complete] at h
    | Close =>
      rw [applyOp, Close_dead s hl hr hg] at h
      simp [complete] at h

theorem runOps_inv (ops : List (Op H)) (s s1 : State H) (hi : Inv s)
    (h : runOps ops s = some s1) :
    Inv s1 ∧ s1.handler = ops.foldl (fun acc o => o.newHandler acc) s.handler := by
  induction ops generalizing s with
  | nil =>
    simp only [runOps, Option.some.injEq] at h
    subst h
    exact ⟨hi, rfl⟩
  | cons op ops ih =>
    simp only [runOps] at h
    cases ha : applyOp op s with
    | none => simp [ha] at h
    | some s2 =>
      rw [ha] at h
      obtain ⟨hi2, hh2⟩ := applyOp_inv op s s2 hi ha
      obtain ⟨hi1, hh1⟩ := ih s2 hi2 h
      refine ⟨hi1, ?_⟩
      rw [hh1, hh2, List.foldl_cons]

theorem Reachable_inv (s : State H) (hs : Reachable s) : Inv s := by
  obtain ⟨ops, h⟩ := hs
  exact (runOps_inv ops _ s Inv_init h).1

omit [Handler H] in
theorem callCount_append (a b : List (Event H)) :
    callCount (a ++ b) = callCount a + callCount b := by
  induction a with
  | nil => simp [callCount]
  | cons e a ih =>
    cases e
    all_goals simp [callCount, ih, Nat.add_right_comm]

omit [Handler H] in
theorem Idle_cases (s : State H) (hs : Idle s) :
    s.running = false ∨ Live s ∨ (s.running = true ∧ s.goroutines = []) := by
  cases hr : s.running with
  | false => exact Or.inl rfl
  | true =>
    cases hg : s.goroutines with
    | nil => exact Or.inr (Or.inr ⟨rfl, rfl⟩)
    | cons g gs => exact Or.inr (Or.inl ⟨hs, hr, by simp [hg]⟩)

omit [Handler H] in
theorem tail_waiting (gs : List (Pc H)) (hg : ∀ g ∈ gs, g = Pc.waiting) :
    ∀ g ∈ gs.tail, g = Pc.waiting :=
  fun g hx => hg g (List.mem_of_mem_tail hx)

/-- What is known after `Register` has returned in an idle state. -/
theorem Register_returns (h : Option H) (s s1 : State H) (b : Bool) (hs : Idle s)
    (hreg : Register h s = Result.ok b s1) :
    b = true ∧ Idle s1 ∧ s1.running = false ∧ s1.handler = h ∧
      callCount s1.log = callCount s.log ∧ (s.running = true → Live s) := by
  rcases Idle_cases s hs with hr | hlive | ⟨hr, hg⟩
  · rw [Register_stopped h s hs.1 hr] at hreg
    simp only [Result.ok.injEq] at hreg
    obtain ⟨hb, h1⟩ := hreg
    subst h1
    exact ⟨hb.symm, ⟨hs.1, hs.2⟩, hr, rfl, rfl, fun h2 => by simp [hr] at h2⟩
  · rw [Register_live h s hlive] at hreg
    simp only [Result.ok.injEq] at hreg
    obtain ⟨hb, h1⟩ := hreg
    subst h1
    refine ⟨hb.symm, ⟨hs.1, tail_waiting _ hs.2⟩, rfl, rfl, ?_, fun _ => hlive⟩
    simp [callCount_append, callCount]
  · rw [Register_dead h s hs.1 hr hg] at hreg
    simp at hreg

omit [Handler H] in
theorem Listen_locked (s : State H) (hl : s.locked = true) : Listen s = Result.blocked s := by
  cases s
  simp_all [Listen, bind_eq, Go.bind, lock]

/-- A completed call other than `Catch('Q')` keeps the flag and the listener
in agreement. -/
theorem applyOp_coherent (op : Op H) (s s1 : State H) (hc : Coherent s)
    (hq : op ≠ Op.Catch runeQ) (h : applyOp op s = some s1) : Coherent s1 := by
  obtain ⟨hi, hco⟩ := hc
  refine ⟨(applyOp_inv op s s1 hi h).1, ?_⟩
  have hl : s.locked = false := hi.1.1
  rcases Inv_cases s hi with ⟨hr, hg⟩ | ⟨hlive, hg⟩ | ⟨hr, hg⟩
  · cases op with
    | Register h0 =>
      rw [applyOp, Register_stopped h0 s hl hr] at h
      simp only [complete, Option.some.injEq] at h
      subst h
      simp [hr]
    | Listen =>
      rw [applyOp, Listen_eq s hl] at h
      cases hhd : s.handler with
      | none =>
        simp [hhd, complete] at h
        subst h
        exact hco
      | some h0 =>
        simp [hhd, hr, complete] at h
        subst h
        simp [hg]
    | Catch p =>
      rw [applyOp, Catch_stopped p s hl hr] at h
      simp only [complete, Option.some.injEq] at h
      subst h
      exact hco
    | Close =>
      rw [applyOp, Close_stopped s hl hr] at h
      simp only [complete, Option.some.injEq] at h
      subst h
      exact hco
  · have hr : s.running = true := hlive.2.1
    cases op with
    | Register h0 =>
      rw [applyOp, Register_live h0 s hlive] at h
      simp only [complete, Option.some.injEq] at h
      subst h
      simp
    | Listen =>
      rw [applyOp, Listen_eq s hl] at h
      cases hhd : s.handler with
      | none => exact absurd hhd (hi.2.2.2.1 hr)
      | some h0 =>
        simp [hhd, hr, complete] at h
        subst h
        exact hco
    | Catch p =>
      rw [applyOp, Catch_live p s hlive] at h
      cases hhd : s.handler with
      | none => exact absurd hhd (hi.2.2.2.1 hr)
      | some h0 =>
        by_cases h1 : p.isNil = true
        · simp [h1, complete] at h
          subst h
          exact hco
        · by_cases h2 : p.isQ = true
          · have : p = runeQ := by simpa [Value.isQ] using h2
            subst this
            exact absurd rfl hq
          · cases hcall : Handler.call h0 p with
            | returns =>
              simp [h1, h2, hhd, hcall, complete] at h
              subst h
              exact hco
            | panics => simp [h1, h2, hhd, hcall, complete] at h
            | hangs => simp [h1, h2, hhd, hcall, complete] at h
    | Close =>
      rw [applyOp, Close_live s hlive] at h
      simp only [complete, Option.some.injEq] at h
      subst h
      simp
  · have := hco hr
    simp [hg] at this

/-- As long as no call is `Catch('Q')`, the running flag is set exactly when a
listener goroutine is alive, and at most one is. -/
theorem runOps_coherent (ops : List (Op H)) (s s1 : State H) (hc : Coherent s)
    (hq : ∀ op ∈ ops, op ≠ Op.Catch runeQ) (h : runOps ops s = some s1) :
    (s1.running = true ↔ s1.goroutines ≠ []) ∧ s1.goroutines.length ≤ 1 := by
  induction ops generalizing s with
  | nil =>
    simp only [runOps, Option.some.injEq] at h
    subst h
    refine ⟨⟨fun hr => by simp [hc.2 hr], fun hg => ?_⟩, hc.1.2.1⟩
    cases hr : s.running with
    | true => rfl
    | false => exact absurd (hc.1.2.2.1 hr) hg
  | cons op ops ih =>
    simp only [runOps] at h
    cases ha : applyOp op s with
    | none => simp [ha] at h
    | some s2 =>
      rw [ha] at h
      exact ih s2 (applyOp_coherent op s s2 hc (hq op (List.mem_cons_self _ _)) ha)
        (fun o ho => hq o (List.mem_cons_of_mem _ ho)) h

/-- While the flag and the listener agree, `Register(h)` returns true without
a handler call and leaves the package stopped with handler `h`; a `Listen()`
issued next returns the handler-not-set error when `h` is nil and succeeds
otherwise. -/
theorem Register_coherent (h : Option H) (s : State H) (hc : Coherent s) :
    ∃ s1, Register h s = Result.ok true s1 ∧ s1.running = false ∧ s1.handler = h ∧
      s1.goroutines = [] ∧ s1.locked = false ∧ callCount s1.log = callCount s.log ∧
      Listen s1 =
        (if h.isNone then Result.ok (some "safe: panic handler not set") s1
         else Result.ok none { s1 with running := true, goroutines := [Pc.waiting],
                                       log := s1.log ++ [Event.spawn h] }) := by
  have hl : s.locked = false := hc.1.1.1
  rcases Inv_cases s hc.1 with ⟨hr, hg⟩ | ⟨hlive, hg⟩ | ⟨hr, hg⟩
  · refine ⟨_, Register_stopped h s hl hr, hr, rfl, hg, hl, rfl, ?_⟩
    rw [Listen_eq]
    · simp [hr, hg]
    · exact hl
  · refine ⟨_, Register_live h s hlive, rfl, rfl, by simp [hg], hl, ?_, ?_⟩
    · simp [callCount_append, callCount]
    · rw [Listen_eq]
      · simp [hg]
      · exact hl
  · have := hc.2 hr
    simp [hg] at this

/-- A completed `Catch` or `Listen` call keeps an idle state with the flag set
and the handler `h` idle, with the flag set and the same handler. -/
theorem applyOp_keeps_running (h : H) (op : Op H) (s s1 : State H)
    (hop : (∃ p, op = Op.Catch p) ∨ op = Op.Listen)
    (hs : Idle s ∧ s.running = true ∧ s.handler = some h)
    (ha : applyOp op s = some s1) :
    Idle s1 ∧ s1.running = true ∧ s1.handler = some h := by
  obtain ⟨hi, hr, hh⟩ := hs
  rcases hop with ⟨p, rfl⟩ | rfl
  · rcases Idle_cases s hi with hr0 | hlive | ⟨-, hg⟩
    · rw [hr] at hr0
      exact absurd hr0 (by simp)
    · rw [applyOp, Catch_live p s hlive] at ha
      by_cases h1 : p.isNil = true
      · simp [h1, complete] at ha
        subst ha
        exact ⟨⟨hi.1, hi.2⟩, hr, hh⟩
      · by_cases h2 : p.isQ = true
        · simp [h1, h2, complete] at ha
          subst ha
          exact ⟨⟨hi.1, tail_waiting _ hi.2⟩, hr, hh⟩
        · cases hcall : Handler.call h p with
          | returns =>
            simp [h1, h2, hh, hcall, complete] at ha
            subst ha
            exact ⟨⟨hi.1, hi.2⟩, hr, rfl⟩
          | panics => simp [h1, h2, hh, hcall, complete] at ha
          | hangs => simp [h1, h2, hh, hcall, complete] at ha
    · rw [applyOp, Catch_dead p s hi.1 hr hg] at ha
      simp [complete] at ha
  · rw [applyOp, Listen_eq s hi.1] at ha
    simp [hh, hr, complete] at ha
    subst ha
    exact ⟨hi, hr, hh⟩

theorem runOps_keeps_running (h : H) (ops : List (Op H)) (s s1 : State H)
    (hops : ∀ op ∈ ops, (∃ p, op = Op.Catch p) ∨ op = Op.Listen)
    (hs : Idle s ∧ s.running = true ∧ s.handler = some h)
    (hrun : runOps ops s = some s1) :
    Idle s1 ∧ s1.running = true ∧ s1.handler = some h := by
  induction ops generalizing s with
  | nil =>
    simp only [runOps, Option.some.injEq] at hrun
    subst hrun
    exact hs
  | cons op ops ih =>
    simp only [runOps] at hrun
    cases ha : applyOp op s with
    | none => simp [ha] at hrun
    | some s2 =>
      rw [ha] at hrun
      exact ih s2 (fun o ho => hops o (List.mem_cons_of_mem _ ho))
        (applyOp_keeps_running h op s s2 (hops op (List.mem_cons_self _ _)) hs ha) hrun

/-! ## Facts on the interleaving semantics -/

omit [Handler H] in
theorem stepTask_start (p : Value) (s : State H) :
    stepTask { p := p, pc := CPc.start } s =
      if s.locked then Result.blocked s
      else Result.ok { p := p, pc := CPc.check } { s with locked := true } := by
  cases hl : s.locked <;> simp [stepTask, bind_eq, pure_eq, Go.bind, lock, hl]

omit [Handler H] in
theorem stepTask_check (p : Value) (s : State H) :
    stepTask { p := p, pc := CPc.check } s =
      if s.running then Result.ok { p := p, pc := CPc.sending } s
      else Result.ok { p := p, pc := CPc.unwinding } s := by
  cases hr : s.running <;> simp [stepTask, bind_eq, pure_eq, Go.bind, getRunning, hr]

omit [Handler H] in
theorem stepTask_sending (p : Value) (s : State H) :
    stepTask { p := p, pc := CPc.sending } s =
      match deliver p s.goroutines with
      | none => Result.blocked s
      | some gs =>
        Result.ok { p := p, pc := CPc.awaiting }
          { s with goroutines := gs, log := s.log ++ [Event.recv p] } := rfl

omit [Handler H] in
theorem stepTask_awaiting (p : Value) (s : State H) :
    stepTask { p := p, pc := CPc.awaiting } s =
      match collect s.goroutines with
      | none => Result.blocked s
      | some (true, gs) =>
        Result.ok { p := p, pc := CPc.leaving }
          { s with goroutines := gs, log := s.log ++ [Event.signal, Event.quit] }
      | some (false, gs) =>
        Result.ok { p := p, pc := CPc.leaving }
          { s with goroutines := gs, log := s.log ++ [Event.signal] } := by
  simp only [stepTask, bind_eq, pure_eq, Go.bind, Done]
  cases hc : collect s.goroutines with
  | none => rfl
  | some r =>
    obtain ⟨q, gs⟩ := r
    cases q <;> rfl

omit [Handler H] in
theorem stepTask_leaving (p : Value) (s : State H) :
    stepTask { p := p, pc := CPc.leaving } s =
      if s.locked then Result.ok { p := p, pc := CPc.returned } { s with locked := false }
      else Result.fatal "sync: unlock of unlocked mutex" s := by
  cases hl : s.locked <;> simp [stepTask, bind_eq, pure_eq, Go.bind, unlock, hl]

omit [Handler H] in
theorem stepTask_unwinding (p : Value) (s : State H) :
    stepTask { p := p, pc := CPc.unwinding } s =
      if s.locked then Result.ok { p := p, pc := CPc.panicked } { s with locked := false }
      else Result.fatal "sync: unlock of unlocked mutex" s := by
  cases hl : s.locked <;> simp [stepTask, bind_eq, pure_eq, Go.bind, unlock, hl]

omit [Handler H] in
theorem stepTask_returned (p : Value) (s : State H) :
    stepTask { p := p, pc := CPc.returned } s = Result.blocked s := rfl

omit [Handler H] in
theorem stepTask_panicked (p : Value) (s : State H) :
    stepTask { p := p, pc := CPc.panicked } s = Result.blocked s := rfl

theorem sum_map_set {α : Type} (f : α → Nat) (l : List α) (i : Nat) (x y : α)
    (h : l[i]? = some x) :
    ((l.set i y).map f).sum + f x = (l.map f).sum + f y := by
  induction l generalizing i with
  | nil => simp at h
  | cons a l ih =>
    cases i with
    | zero =>
      simp only [List.getElem?_cons_zero, Option.some.injEq] at h
      subst h
      simp only [List.set_cons_zero, List.map_cons, List.sum_cons]
      omega
    | succ i =>
      simp only [List.getElem?_cons_succ] at h
      have := ih i h
      simp only [List.set_cons_succ, List.map_cons, List.sum_cons]
      omega

theorem countP_set {α : Type} (P : α → Bool) (l : List α) (i : Nat) (x y : α)
    (h : l[i]? = some x) :
    (l.set i y).countP P + (if P x then 1 else 0) =
      l.countP P + (if P y then 1 else 0) := by
  induction l generalizing i with
  | nil => simp at h
  | cons a l ih =>
    cases i with
    | zero =>
      simp only [List.getElem?_cons_zero, Option.some.injEq] at h
      subst h
      simp only [List.set_cons_zero, List.countP_cons]
      omega
    | succ i =>
      simp only [List.getElem?_cons_succ] at h
      have := ih i h
      simp only [List.set_cons_succ, List.countP_cons]
      omega

theorem map_set_same {α β : Type} (f : α → β) (l : List α) (i : Nat) (x y : α)
    (h : l[i]? = some x) (hf : f y = f x) : (l.set i y).map f = l.map f := by
  induction l generalizing i with
  | nil => simp
  | cons a l ih =>
    cases i with
    | zero =>
      simp only [List.getElem?_cons_zero, Option.some.injEq] at h
      subst h
      simp [hf]
    | succ i =>
      simp only [List.getElem?_cons_succ] at h
      simp [ih i h]

omit [Handler H] in
theorem deliver_weight (p : Value) (gs gs1 : List (Pc H)) (h : deliver p gs = some gs1) :
    (gs1.map Pc.weight).sum = (gs.map Pc.weight).sum + 2 := by
  induction gs generalizing gs1 with
  | nil => simp [deliver] at h
  | cons g gs ih =>
    cases g with
    | waiting =>
      simp only [deliver, Option.some.injEq] at h
      subst h
      simp [Pc.weight]
      omega
    | got q =>
      simp only [deliver, Option.map_eq_some'] at h
      obtain ⟨gs2, h2, rfl⟩ := h
      simp [ih gs2 h2]
      omega
    | handling h0 q =>
      simp only [deliver, Option.map_eq_some'] at h
      obtain ⟨gs2, h2, rfl⟩ := h
      simp [ih gs2 h2]
      omega
    | notify q =>
      simp only [deliver, Option.map_eq_some'] at h
      obtain ⟨gs2, h2, rfl⟩ := h
      simp [ih gs2 h2]
      omega

omit [Handler H] in
theorem collect_weight (gs gs1 : List (Pc H)) (q : Bool) (h : collect gs = some (q, gs1)) :
    (gs1.map Pc.weight).sum = (gs.map Pc.weight).sum := by
  induction gs generalizing gs1 with
  | nil => simp [collect] at h
  | cons g gs ih =>
    cases g with
    | waiting =>
      simp only [collect, Option.map_eq_some'] at h
      obtain ⟨r, h2, h3⟩ := h
      simp only [Prod.mk.injEq] at h3
      obtain ⟨rfl, rfl⟩ := h3
      simp [ih r.2 h2]
    | got p =>
      simp only [collect, Option.map_eq_some'] at h
      obtain ⟨r, h2, h3⟩ := h
      simp only [Prod.mk.injEq] at h3
      obtain ⟨rfl, rfl⟩ := h3
      simp [ih r.2 h2]
    | handling h0 p =>
      simp only [collect, Option.map_eq_some'] at h
      obtain ⟨r, h2, h3⟩ := h
      simp only [Prod.mk.injEq] at h3
      obtain ⟨rfl, rfl⟩ := h3
      simp [ih r.2 h2]
    | notify b =>
      cases b with
      | true =>
        simp only [collect, Option.some.injEq, Prod.mk.injEq] at h
        obtain ⟨-, rfl⟩ := h
        simp [Pc.weight]
      | false =>
        simp only [collect, Option.some.injEq, Prod.mk.injEq] at h
        obtain ⟨-, rfl⟩ := h
        simp [Pc.weight]

omit [Handler H] in
theorem stepTask_weight (t t1 : Task) (s s1 : State H)
    (h : stepTask t s = Result.ok t1 s1) :
    t1.pc.weight + (s1.goroutines.map Pc.weight).sum <
      t.pc.weight + (s.goroutines.map Pc.weight).sum ∧ t1.p = t.p := by
  obtain ⟨p, pc⟩ := t
  cases pc with
  | start =>
    rw [stepTask_start] at h
    cases hl : s.locked <;> simp [hl] at h
    obtain ⟨rfl, rfl⟩ := h
    simp [CPc.weight]
  | check =>
    rw [stepTask_check] at h
    cases hr : s.running <;> simp [hr] at h <;> obtain ⟨rfl, rfl⟩ := h <;> simp [CPc.weight]
  | sending =>
    rw [stepTask_sending] at h
    cases hd : deliver p s.goroutines with
    | none => simp [hd] at h
    | some gs =>
      simp [hd] at h
      obtain ⟨rfl, rfl⟩ := h
      simp only [CPc.weight, deliver_weight p _ gs hd]
      exact ⟨by omega, trivial⟩
  | awaiting =>
    rw [stepTask_awaiting] at h
    cases hc : collect s.goroutines with
    | none => simp [hc] at h
    | some r =>
      obtain ⟨q, gs⟩ := r
      have hw := collect_weight _ gs q hc
      cases q <;> simp [hc] at h <;> obtain ⟨rfl, rfl⟩ := h <;> simp [CPc.weight, hw]
  | leaving =>
    rw [stepTask_leaving] at h
    cases hl : s.locked <;> simp [hl] at h
    obtain ⟨rfl, rfl⟩ := h
    simp [CPc.weight]
  | unwinding =>
    rw [stepTask_unwinding] at h
    cases hl : s.locked <;> simp [hl] at h
    obtain ⟨rfl, rfl⟩ := h
    simp [CPc.weight]
  | returned => simp [stepTask_returned] at h
  | panicked => simp [stepTask_panicked] at h

omit [Handler H] in
theorem stepTask_fatal (t : Task) (s s1 : State H) (msg : String)
    (h : stepTask t s = Result.fatal msg s1) : s1 = s := by
  obtain ⟨p, pc⟩ := t
  cases pc with
  | start =>
    rw [stepTask_start] at h
    cases hl : s.locked <;> simp [hl] at h
  | check =>
    rw [stepTask_check] at h
    cases hr : s.running <;> simp [hr] at h
  | sending =>
    rw [stepTask_sending] at h
    cases hd : deliver p s.goroutines <;> simp [hd] at h
  | awaiting =>
    rw [stepTask_awaiting] at h
    cases hc : collect s.goroutines with
    | none => simp [hc] at h
    | some r =>
      obtain ⟨q, gs⟩ := r
      cases q <;> simp [hc] at h
  | leaving =>
    rw [stepTask_leaving] at h
    cases hl : s.locked <;> simp [hl] at h
    exact h.2.symm
  | unwinding =>
    rw [stepTask_unwinding] at h
    cases hl : s.locked <;> simp [hl] at h
    exact h.2.symm
  | returned => simp [stepTask_returned] at h
  | panicked => simp [stepTask_panicked] at h

theorem stepPc_next_weight (hd : Option H) (g g1 : Pc H) (evs : List (Event H))
    (hs : stepPc hd g = Moved.next g1 evs) : g1.weight < g.weight := by
  cases g with
  | waiting => simp [stepPc] at hs
  | notify q => simp [stepPc] at hs
  | got p =>
    simp only [stepPc] at hs
    split at hs
    · simp only [Moved.next.injEq] at hs
      rw [← hs.1]
      simp [Pc.weight]
    · split at hs
      · simp only [Moved.next.injEq] at hs
        rw [← hs.1]
        simp [Pc.weight]
      · split at hs
        · simp at hs
        · simp only [Moved.next.injEq] at hs
          rw [← hs.1]
          simp [Pc.weight]
  | handling h0 p =>
    simp only [stepPc] at hs
    split at hs
    · simp only [Moved.next.injEq] at hs
      rw [← hs.1]
      simp [Pc.weight]
    · simp at hs
    · simp at hs

theorem stepPc_raised (hd : Option H) (g g1 : Pc H) (evs : List (Event H))
    (hs : stepPc hd g = Moved.raised g1 evs) : g1 = g := by
  cases g with
  | waiting => simp [stepPc] at hs
  | notify q => simp [stepPc] at hs
  | got p =>
    simp only [stepPc] at hs
    split at hs
    · simp at hs
    · split at hs
      · simp at hs
      · split at hs <;> simp at hs
  | handling h0 p =>
    simp only [stepPc] at hs
    split at hs
    · simp at hs
    · simp only [Moved.raised.injEq] at hs
      exact hs.1.symm
    · simp at hs

/-- What a step of listener goroutine `j` is, when it can move. -/
theorem stepListener_some (j : Nat) (s : State H) (r : Result H Unit)
    (h : stepListener j s = some r) :
    ∃ g, s.goroutines[j]? = some g ∧ g ≠ Pc.waiting ∧ (∀ q, g ≠ Pc.notify q) ∧
      ((stepPc s.handler g = Moved.nilCall ∧
          r = Result.fatal "invalid memory address or nil pointer dereference" s) ∨
       (∃ g1 evs, stepPc s.handler g = Moved.raised g1 evs ∧ g1 = g ∧
          r = Result.aborted { s with goroutines := s.goroutines.set j g1,
                                      log := s.log ++ evs }) ∨
       (∃ g1 evs, stepPc s.handler g = Moved.next g1 evs ∧ g1.weight < g.weight ∧
          r = Result.ok () { s with goroutines := s.goroutines.set j g1,
                                    log := s.log ++ evs })) := by
  unfold stepListener at h
  cases hg : s.goroutines[j]? with
  | none => simp [hg] at h
  | some g =>
    rw [hg] at h
    simp only at h
    have hw : g ≠ Pc.waiting := by
      intro hgw
      subst hgw
      simp [stepPc] at h
    have hn : ∀ q, g ≠ Pc.notify q := by
      intro q hgn
      subst hgn
      simp [stepPc] at h
    refine ⟨g, rfl, hw, hn, ?_⟩
    cases hs : stepPc s.handler g with
    | stuck => simp [hs] at h
    | nilCall =>
      rw [hs] at h
      simp only [Option.some.injEq] at h
      exact Or.inl ⟨rfl, h.symm⟩
    | raised g1 evs =>
      rw [hs] at h
      simp only [Option.some.injEq] at h
      exact Or.inr (Or.inl ⟨g1, evs, rfl, stepPc_raised _ _ _ _ hs, h.symm⟩)
    | next g1 evs =>
      rw [hs] at h
      simp only [Option.some.injEq] at h
      exact Or.inr (Or.inr ⟨g1, evs, rfl, stepPc_next_weight _ _ _ _ hs, h.symm⟩)

/-- Every step lowers `remaining`: no schedule makes more than
`remaining σ` steps from `σ`. -/
theorem step_remaining (t : Tid) (σ σ1 : Sys H) (h : step t σ = some σ1) :
    remaining σ1 < remaining σ := by
  unfold step at h
  cases hd : σ.dead with
  | true => simp [hd] at h
  | false =>
    simp only [hd, Bool.false_eq_true, if_false] at h
    cases t with
    | task i =>
      simp only at h
      cases ht : σ.tasks[i]? with
      | none => simp [ht] at h
      | some tk =>
        rw [ht] at h
        simp only at h
        cases hs : stepTask tk σ.st with
        | ok tk1 s1 =>
          rw [hs] at h
          simp only [Option.some.injEq] at h
          subst h
          have hw := (stepTask_weight tk tk1 σ.st s1 hs).1
          have hsum := sum_map_set (fun t : Task => t.pc.weight) σ.tasks i tk tk1 ht
          simp only [remaining, hd]
          simp only at hsum
          omega
        | fatal msg s1 =>
          rw [hs] at h
          simp only [Option.some.injEq] at h
          subst h
          have := stepTask_fatal tk σ.st s1 msg hs
          subst this
          simp [remaining, hd]
        | panic msg s1 => simp [hs] at h
        | blocked s1 => simp [hs] at h
        | aborted s1 => simp [hs] at h
    | listener j =>
      simp only at h
      cases hl : stepListener j σ.st with
      | none => simp [hl] at h
      | some r =>
        rw [hl] at h
        obtain ⟨g, hg, -, -, hcase⟩ := stepListener_some j σ.st r hl
        rcases hcase with ⟨-, rfl⟩ | ⟨g1, evs, -, rfl, rfl⟩ | ⟨g1, evs, -, hw, rfl⟩
        · simp only [Option.some.injEq] at h
          subst h
          simp [remaining, hd]
        · simp only [Option.some.injEq] at h
          subst h
          have hsum := sum_map_set (Pc.weight) σ.st.goroutines j g1 g1 hg
          simp only [remaining, hd]
          simp only [Bool.false_eq_true, if_false, if_true]
          omega
        · simp only [Option.some.injEq] at h
          subst h
          have hsum := sum_map_set (Pc.weight) σ.st.goroutines j g g1 hg
          simp only [remaining, hd]
          omega

omit [Handler H] in
theorem Good_start (h : H) (ps : List Value) : Good h ps (Sys.start h ps) := by
  refine ⟨rfl, rfl, rfl, ?_, ?_, Or.inl ⟨rfl, rfl, ?_, rfl, ?_⟩⟩
  · simp [Sys.start, Function.comp_def]
  · simp [Sys.start]
  · intro j x hx
    have hm : x ∈ (Sys.start h ps).tasks := List.mem_iff_getElem?.mpr ⟨j, hx⟩
    simp only [Sys.start, List.mem_map] at hm
    obtain ⟨p, -, rfl⟩ := hm
    exact Or.inl rfl
  · intro P
    have h0 : returnedTasks P (Sys.start h ps) = 0 := by
      simp [returnedTasks, Sys.start, List.countP_eq_zero]
    rw [h0]
    exact ⟨rfl, rfl⟩

/-- What a step of task `i` is, when it can move. -/
theorem step_task_some (i : Nat) (σ σ1 : Sys H) (h : step (Tid.task i) σ = some σ1) :
    σ.dead = false ∧ ∃ tk, σ.tasks[i]? = some tk ∧
      ((∃ tk1 s1, stepTask tk σ.st = Result.ok tk1 s1 ∧
          σ1 = { σ with st := s1, tasks := σ.tasks.set i tk1 }) ∨
       (∃ msg s1, stepTask tk σ.st = Result.fatal msg s1 ∧
          σ1 = { σ with st := s1, dead := true })) := by
  unfold step at h
  cases hd : σ.dead with
  | true => simp [hd] at h
  | false =>
    simp only [hd, Bool.false_eq_true, if_false] at h
    cases ht : σ.tasks[i]? with
    | none => simp [ht] at h
    | some tk =>
      rw [ht] at h
      simp only at h
      refine ⟨rfl, tk, rfl, ?_⟩
      cases hs : stepTask tk σ.st with
      | ok tk1 s1 =>
        rw [hs] at h
        simp only [Option.some.injEq] at h
        exact Or.inl ⟨tk1, s1, rfl, h.symm⟩
      | fatal msg s1 =>
        rw [hs] at h
        simp only [Option.some.injEq] at h
        exact Or.inr ⟨msg, s1, rfl, h.symm⟩
      | panic msg s1 => simp [hs] at h
      | blocked s1 => simp [hs] at h
      | aborted s1 => simp [hs] at h

/-- What a step of listener `j` is, when it can move. -/
theorem step_listener_some (j : Nat) (σ σ1 : Sys H)
    (h : step (Tid.listener j) σ = some σ1) :
    σ.dead = false ∧ ∃ g, σ.st.goroutines[j]? = some g ∧ g ≠ Pc.waiting ∧
      (∀ q, g ≠ Pc.notify q) ∧
      ((stepPc σ.st.handler g = Moved.nilCall ∧ σ1 = { σ with dead := true }) ∨
       (∃ g1 evs, stepPc σ.st.handler g = Moved.raised g1 evs ∧
          σ1 = { σ with st := { σ.st with goroutines := σ.st.goroutines.set j g1,
                                          log := σ.st.log ++ evs },
                        dead := true }) ∨
       (∃ g1 evs, stepPc σ.st.handler g = Moved.next g1 evs ∧
          σ1 = { σ with st := { σ.st with goroutines := σ.st.goroutines.set j g1,
                                          log := σ.st.log ++ evs } })) := by
  unfold step at h
  cases hd : σ.dead with
  | true => simp [hd] at h
  | false =>
    simp only [hd, Bool.false_eq_true, if_false] at h
    cases hl : stepListener j σ.st with
    | none => simp [hl] at h
    | some r =>
      rw [hl] at h
      obtain ⟨g, hg, hw, hn, hcase⟩ := stepListener_some j σ.st r hl
      refine ⟨rfl, g, hg, hw, hn, ?_⟩
      rcases hcase with ⟨hs, rfl⟩ | ⟨g1, evs, hs, -, rfl⟩ | ⟨g1, evs, hs, -, rfl⟩
      · simp only [Option.some.injEq] at h
        exact Or.inl ⟨hs, h.symm⟩
      · simp only [Option.some.injEq] at h
        exact Or.inr (Or.inl ⟨g1, evs, hs, h.symm⟩)
      · simp only [Option.some.injEq] at h
        exact Or.inr (Or.inr ⟨g1, evs, hs, h.symm⟩)

omit [Handler H] in
theorem inCall_append (log evs : List (Event H)) :
    inCall (log ++ evs) = evs.foldl inCallStep (inCall log) := by
  simp [inCall, List.foldl_append]

omit [Handler H] in
theorem calls_append (P : Value → Bool) (log evs : List (Event H)) :
    calls P (log ++ evs) = calls P log + calls P evs := by
  simp [calls]

omit [Handler H] in
theorem backs_append (P : Value → Bool) (log evs : List (Event H)) :
    backs P (log ++ evs) = backs P log + backs P evs := by
  simp [backs]

omit [Handler H] in
theorem returnedTasks_set (P : Value → Bool) (σ : Sys H) (s1 : State H) (i : Nat)
    (x y : Task) (hx : σ.tasks[i]? = some x) :
    returnedTasks P { σ with st := s1, tasks := σ.tasks.set i y } +
        (if (decide (x.pc = CPc.returned) && P x.p) = true then 1 else 0) =
      returnedTasks P σ + (if (decide (y.pc = CPc.returned) && P y.p) = true then 1 else 0) :=
  countP_set (fun t : Task => decide (t.pc = CPc.returned) && P t.p) σ.tasks i x y hx

theorem Good_step_task_free (h : H) (ps : List Value) (i : Nat) (σ σ1 : Sys H)
    (hs : step (Tid.task i) σ = some σ1)
    (hdead : σ.dead = false) (hrun : σ.st.running = true) (hh : σ.st.handler = some h)
    (hpay : σ.tasks.map (fun t => t.p) = ps)
    (hby : ∀ h1 v, Event.call h1 v ∈ σ.st.log → h1 = h)
    (hl : σ.st.locked = false) (hgs : σ.st.goroutines = [Pc.waiting])
    (hrest : ∀ (j : Nat) (x : Task), σ.tasks[j]? = some x → Rest x)
    (hin : inCall σ.st.log = some false)
    (hcnt : ∀ P, calls P σ.st.log = returnedTasks P σ ∧
      backs P σ.st.log = returnedTasks P σ) :
    Good h ps σ1 := by
  obtain ⟨-, tk, htk, hcase⟩ := step_task_some i σ σ1 hs
  have hr := hrest i tk htk
  obtain ⟨p, pc⟩ := tk
  rcases hr with hpc | hpc
  · simp only at hpc
    subst hpc
    rw [stepTask_start] at hcase
    simp only [hl, Bool.false_eq_true, if_false, Result.ok.injEq, exists_and_left,
      reduceCtorEq, false_and, exists_false, or_false] at hcase
    obtain ⟨tk1, s1, ⟨rfl, rfl⟩, rfl⟩ := hcase
    refine ⟨hdead, hrun, hh, ?_, hby,
      Or.inr ⟨rfl, i, { p := p, pc := CPc.check }, Pc.waiting, ?_, ?_, hgs, ?_, ?_, ?_⟩⟩
    · rw [← hpay]
      exact map_set_same _ _ _ _ _ htk rfl
    · exact List.getElem?_set_self' .. |>.trans (by simp [htk])
    · intro j x hx hj
      rw [List.getElem?_set_ne (Ne.symm hj)] at hx
      exact hrest j x hx
    · simp [phaseOK]
    · exact hin
    · intro P
      have hset := returnedTasks_set P σ { σ.st with locked := true } i _
        { p := p, pc := CPc.check } htk
      simp only [reduceCtorEq, decide_False, Bool.false_and, Bool.false_eq_true, if_false,
        Nat.add_zero] at hset
      simp only [called, handled, Bool.false_and, Bool.false_eq_true, if_false, Nat.add_zero]
      rw [hset]
      exact hcnt P
  · simp only at hpc
    subst hpc
    simp [stepTask_returned] at hcase

theorem Good_step_task_held (h : H) (ps : List Value) (i : Nat) (σ σ1 : Sys H)
    (hs : step (Tid.task i) σ = some σ1)
    (hdead : σ.dead = false) (hrun : σ.st.running = true) (hh : σ.st.handler = some h)
    (hpay : σ.tasks.map (fun t => t.p) = ps)
    (hby : ∀ h1 v, Event.call h1 v ∈ σ.st.log → h1 = h)
    (hl : σ.st.locked = true) (i0 : Nat) (t0 : Task) (g : Pc H)
    (ht0 : σ.tasks[i0]? = some t0)
    (hrest : ∀ (j : Nat) (x : Task), σ.tasks[j]? = some x → j ≠ i0 → Rest x)
    (hgs : σ.st.goroutines = [g]) (hph : phaseOK h t0 g)
    (hin : inCall σ.st.log = some g.isHandling)
    (hcnt : ∀ P, calls P σ.st.log =
        returnedTasks P σ + (if called t0 g && P t0.p then 1 else 0) ∧
      backs P σ.st.log = returnedTasks P σ + (if handled t0 g && P t0.p then 1 else 0)) :
    Good h ps σ1 := by
  obtain ⟨-, tk, htk, hcase⟩ := step_task_some i σ σ1 hs
  by_cases hi : i = i0
  · subst hi
    rw [ht0] at htk
    simp only [Option.some.injEq] at htk
    subst htk
    have hget : ∀ y : Task, (σ.tasks.set i y)[i]? = some y := fun y =>
      List.getElem?_set_self' .. |>.trans (by simp [ht0])
    have hother : ∀ (y : Task) (j : Nat) (x : Task), (σ.tasks.set i y)[j]? = some x → j ≠ i →
        Rest x := by
      intro y j x hx hj
      rw [List.getElem?_set_ne (Ne.symm hj)] at hx
      exact hrest j x hx hj
    obtain ⟨p, pc⟩ := t0
    cases pc with
    | start => cases g <;> simp [phaseOK] at hph
    | unwinding => cases g <;> simp [phaseOK] at hph
    | returned => cases g <;> simp [phaseOK] at hph
    | panicked => cases g <;> simp [phaseOK] at hph
    | check =>
      cases g <;> simp [phaseOK] at hph
      rw [stepTask_check] at hcase
      simp only [hrun, if_true, Result.ok.injEq, reduceCtorEq, false_and, exists_false,
        or_false] at hcase
      obtain ⟨tk1, s1, ⟨rfl, rfl⟩, rfl⟩ := hcase
      refine ⟨hdead, hrun, hh, ?_, hby,
        Or.inr ⟨hl, i, { p := p, pc := CPc.sending }, Pc.waiting, hget _, hother _, hgs,
          by simp [phaseOK], hin, ?_⟩⟩
      · rw [← hpay]
        exact map_set_same _ _ _ _ _ ht0 rfl
      · intro P
        have hset := returnedTasks_set P σ σ.st i _ { p := p, pc := CPc.sending } ht0
        simp only [reduceCtorEq, decide_False, Bool.false_and, Bool.false_eq_true, if_false,
          Nat.add_zero] at hset
        have hc := hcnt P
        simp only [called, handled, Bool.false_and, Bool.false_eq_true, if_false,
          Nat.add_zero] at hc ⊢
        rw [hset]
        exact hc
    | sending =>
      cases g <;> simp [phaseOK] at hph
      rw [stepTask_sending] at hcase
      simp only [hgs, deliver, Result.ok.injEq, reduceCtorEq, false_and, exists_false,
        or_false] at hcase
      obtain ⟨tk1, s1, ⟨rfl, rfl⟩, rfl⟩ := hcase
      refine ⟨hdead, hrun, hh, ?_, ?_,
        Or.inr ⟨hl, i, { p := p, pc := CPc.awaiting }, Pc.got p, hget _, hother _, rfl,
          by simp [phaseOK], ?_, ?_⟩⟩
      · rw [← hpay]
        exact map_set_same _ _ _ _ _ ht0 rfl
      · intro h1 v hmem
        simp only [List.mem_append, List.mem_singleton, reduceCtorEq, or_false] at hmem
        exact hby h1 v hmem
      · simp only [inCall_append, hin]
        rfl
      · intro P
        have hset := returnedTasks_set P σ
          { σ.st with goroutines := [Pc.got p], log := σ.st.log ++ [Event.recv p] } i _
          { p := p, pc := CPc.awaiting } ht0
        simp only [reduceCtorEq, decide_False, Bool.false_and, Bool.false_eq_true, if_false,
          Nat.add_zero] at hset
        have hc := hcnt P
        simp only [called, handled, Bool.false_and, Bool.false_eq_true, if_false,
          Nat.add_zero] at hc ⊢
        rw [hset, calls_append, backs_append]
        simpa [calls, backs] using hc
    | awaiting =>
      rw [stepTask_awaiting] at hcase
      cases g with
      | waiting => simp [phaseOK] at hph
      | got q => simp [hgs, collect] at hcase
      | handling h1 q => simp [hgs, collect] at hcase
      | notify q =>
        simp only [phaseOK] at hph
        subst hph
        simp only [hgs, collect, Result.ok.injEq, reduceCtorEq, false_and, exists_false,
          or_false] at hcase
        obtain ⟨tk1, s1, ⟨rfl, rfl⟩, rfl⟩ := hcase
        refine ⟨hdead, hrun, hh, ?_, ?_,
          Or.inr ⟨hl, i, { p := p, pc := CPc.leaving }, Pc.waiting, hget _, hother _, rfl,
            by simp [phaseOK], ?_, ?_⟩⟩
        · rw [← hpay]
          exact map_set_same _ _ _ _ _ ht0 rfl
        · intro h1 v hmem
          simp only [List.mem_append, List.mem_singleton, reduceCtorEq, or_false] at hmem
          exact hby h1 v hmem
        · simp only [inCall_append, hin]
          rfl
        · intro P
          have hset := returnedTasks_set P σ
            { σ.st with goroutines := [Pc.waiting], log := σ.st.log ++ [Event.signal] } i _
            { p := p, pc := CPc.leaving } ht0
          simp only [reduceCtorEq, decide_False, Bool.false_and, Bool.false_eq_true, if_false,
            Nat.add_zero] at hset
          have hc := hcnt P
          simp only [called, handled] at hc ⊢
          rw [hset, calls_append, backs_append]
          simpa [calls, backs] using hc
    | leaving =>
      cases g <;> simp [phaseOK] at hph
      rw [stepTask_leaving] at hcase
      simp only [hl, if_true, Result.ok.injEq, reduceCtorEq, false_and, exists_false,
        or_false] at hcase
      obtain ⟨tk1, s1, ⟨rfl, rfl⟩, rfl⟩ := hcase
      refine ⟨hdead, hrun, hh, ?_, hby, Or.inl ⟨rfl, hgs, ?_, hin, ?_⟩⟩
      · rw [← hpay]
        exact map_set_same _ _ _ _ _ ht0 rfl
      · intro j x hx
        by_cases hj : j = i
        · subst hj
          rw [hget] at hx
          simp only [Option.some.injEq] at hx
          subst hx
          exact Or.inr rfl
        · exact hother _ j x hx hj
      · intro P
        have hset := returnedTasks_set P σ { σ.st with locked := false } i _
          { p := p, pc := CPc.returned } ht0
        simp only [reduceCtorEq, decide_False, Bool.false_and, Bool.false_eq_true, if_false,
          Nat.add_zero, decide_True, Bool.true_and] at hset
        have hc := hcnt P
        simp only [called, handled, Bool.true_and] at hc
        rw [hset]
        exact hc
  · have hr := hrest i tk htk hi
    obtain ⟨p, pc⟩ := tk
    rcases hr with hpc | hpc
    · simp only at hpc
      subst hpc
      simp [stepTask_start, hl] at hcase
    · simp only at hpc
      subst hpc
      simp [stepTask_returned] at hcase

theorem payload_mem (ps : List Value) (tasks : List Task) (i : Nat) (t : Task)
    (hpay : tasks.map (fun t => t.p) = ps) (ht : tasks[i]? = some t) : t.p ∈ ps := by
  rw [← hpay]
  exact List.mem_map.mpr ⟨t, List.mem_iff_getElem?.mpr ⟨i, ht⟩, rfl⟩

theorem Good_step_listener (h : H) (ps : List Value)
    (hps : ∀ p ∈ ps, p ≠ Value.nil ∧ p ≠ runeQ)
    (hret : ∀ p ∈ ps, Handler.call h p = Effect.returns) (j : Nat) (σ σ1 : Sys H)
    (hg : Good h ps σ) (hs : step (Tid.listener j) σ = some σ1) : Good h ps σ1 := by
  obtain ⟨hdead, hrun, hh, hpay, hby, hshape⟩ := hg
  obtain ⟨-, g, hgj, hw, hn, hcase⟩ := step_listener_some j σ σ1 hs
  rcases hshape with ⟨hl, hgs, -, -, -⟩ | ⟨hl, i0, t0, g0, ht0, hrest, hgs, hph, hin, hcnt⟩
  · rw [hgs] at hgj
    cases j with
    | zero =>
      simp only [List.getElem?_cons_zero, Option.some.injEq] at hgj
      exact absurd hgj.symm hw
    | succ j => simp at hgj
  · rw [hgs] at hgj
    cases j with
    | succ j => simp at hgj
    | zero =>
      simp only [List.getElem?_cons_zero, Option.some.injEq] at hgj
      subst hgj
      have hmem := payload_mem ps σ.tasks i0 t0 hpay ht0
      obtain ⟨p, pc⟩ := t0
      cases g0 with
      | waiting => exact absurd rfl hw
      | notify q => exact absurd rfl (hn q)
      | got q =>
        cases pc <;> simp [phaseOK] at hph
        subst hph
        obtain ⟨hnil, hq⟩ := hps q hmem
        have h1 : q.isNil = false := by simp [Value.isNil, hnil]
        have h2 : q.isQ = false := by simp [Value.isQ, hq]
        have hstep : stepPc σ.st.handler (Pc.got q) =
            Moved.next (Pc.handling h q) [Event.call h q] := by
          simp [stepPc, h1, h2, hh]
        rw [hstep] at hcase
        simp only [reduceCtorEq, false_and, exists_false, false_or, Moved.next.injEq] at hcase
        obtain ⟨g1, evs, ⟨rfl, rfl⟩, rfl⟩ := hcase
        refine ⟨hdead, hrun, hh, hpay, ?_,
          Or.inr ⟨hl, i0, { p := q, pc := CPc.awaiting }, Pc.handling h q, ht0, hrest, ?_,
            by simp [phaseOK], ?_, ?_⟩⟩
        · intro h1 v hm
          simp only [List.mem_append, List.mem_singleton, Event.call.injEq] at hm
          rcases hm with hm | hm
          · exact hby h1 v hm
          · exact hm.1
        · simp [hgs]
        · simp only [inCall_append, hin]
          rfl
        · intro P
          have hc := hcnt P
          simp only [called, handled, Bool.false_and, Bool.false_eq_true, if_false,
            Nat.add_zero, Bool.true_and] at hc ⊢
          simp only [calls_append, backs_append, hc]
          refine ⟨?_, ?_⟩
          · cases hP : P q <;> simp [calls, hP, returnedTasks]
          · simp [backs, returnedTasks]
      | handling h1 q =>
        cases pc <;> simp [phaseOK] at hph
        obtain ⟨rfl, rfl⟩ := hph
        have hstep : stepPc σ.st.handler (Pc.handling h1 q) =
            Moved.next (Pc.notify false) [Event.back h1 q] := by
          simp [stepPc, hret q hmem]
        rw [hstep] at hcase
        simp only [reduceCtorEq, false_and, exists_false, false_or, Moved.next.injEq] at hcase
        obtain ⟨g1, evs, ⟨rfl, rfl⟩, rfl⟩ := hcase
        refine ⟨hdead, hrun, hh, hpay, ?_,
          Or.inr ⟨hl, i0, { p := q, pc := CPc.awaiting }, Pc.notify false, ht0, hrest, ?_,
            by simp [phaseOK], ?_, ?_⟩⟩
        · intro h2 v hm
          simp only [List.mem_append, List.mem_singleton, reduceCtorEq, or_false] at hm
          exact hby h2 v hm
        · simp [hgs]
        · simp only [inCall_append, hin]
          rfl
        · intro P
          have hc := hcnt P
          simp only [called, handled, Bool.false_and, Bool.false_eq_true, if_false,
            Nat.add_zero, Bool.true_and] at hc ⊢
          simp only [calls_append, backs_append, hc]
          refine ⟨?_, ?_⟩
          · simp [calls, returnedTasks]
          · cases hP : P q <;> simp [backs, hP, returnedTasks]

/-- Every step keeps the invariant, when no payload is nil or `'Q'` and the
handler returns on every payload. -/
theorem Good_step (h : H) (ps : List Value)
    (hps : ∀ p ∈ ps, p ≠ Value.nil ∧ p ≠ runeQ)
    (hret : ∀ p ∈ ps, Handler.call h p = Effect.returns) (t : Tid) (σ σ1 : Sys H)
    (hg : Good h ps σ) (hs : step t σ = some σ1) : Good h ps σ1 := by
  cases t with
  | listener j => exact Good_step_listener h ps hps hret j σ σ1 hg hs
  | task i =>
    obtain ⟨hdead, hrun, hh, hpay, hby, hshape⟩ := hg
    rcases hshape with ⟨hl, hgs, hrest, hin, hcnt⟩ |
      ⟨hl, i0, t0, g0, ht0, hrest, hgs, hph, hin, hcnt⟩
    · exact Good_step_task_free h ps i σ σ1 hs hdead hrun hh hpay hby hl hgs hrest hin hcnt
    · exact Good_step_task_held h ps i σ σ1 hs hdead hrun hh hpay hby hl i0 t0 g0 ht0 hrest
        hgs hph hin hcnt

theorem Good_run (h : H) (ps : List Value)
    (hps : ∀ p ∈ ps, p ≠ Value.nil ∧ p ≠ runeQ)
    (hret : ∀ p ∈ ps, Handler.call h p = Effect.returns) (sched : List Tid) (σ : Sys H)
    (hg : Good h ps σ) : Good h ps (run sched σ) := by
  induction sched generalizing σ with
  | nil => exact hg
  | cons t sched ih =>
    simp only [run, List.foldl_cons]
    cases hs : step t σ with
    | none => exact ih σ hg
    | some σ1 => exact ih σ1 (Good_step h ps hps hret t σ σ1 hg hs)

theorem can_move (t : Tid) (σ : Sys H) (h : (step t σ).isSome = true) :
    ∃ t σ1, step t σ = some σ1 :=
  ⟨t, Option.isSome_iff_exists.mp h⟩

/-- No deadlock: in a state of the invariant either every task has returned
or somebody can move. -/
theorem Good_progress (h : H) (ps : List Value)
    (hret : ∀ p ∈ ps, Handler.call h p = Effect.returns) (σ : Sys H) (hg : Good h ps σ) :
    allReturned σ ∨ ∃ t σ1, step t σ = some σ1 := by
  obtain ⟨hdead, hrun, hh, hpay, hby, hshape⟩ := hg
  rcases hshape with ⟨hl, hgs, hrest, hin, hcnt⟩ |
    ⟨hl, i0, t0, g, ht0, hrest, hgs, hph, hin, hcnt⟩
  · by_cases hex : ∃ (j : Nat) (x : Task), σ.tasks[j]? = some x ∧ x.pc = CPc.start
    · obtain ⟨j, x, hx, hpc⟩ := hex
      obtain ⟨p, pc⟩ := x
      simp only at hpc
      subst hpc
      exact Or.inr (can_move (Tid.task j) σ (by simp [step, hdead, hx, stepTask_start, hl]))
    · refine Or.inl ?_
      intro x hx
      obtain ⟨j, hj⟩ := List.mem_iff_getElem?.mp hx
      rcases hrest j x hj with hpc | hpc
      · exact absurd ⟨j, x, hj, hpc⟩ hex
      · exact hpc
  · refine Or.inr ?_
    obtain ⟨p, pc⟩ := t0
    cases pc with
    | start => cases g <;> simp [phaseOK] at hph
    | unwinding => cases g <;> simp [phaseOK] at hph
    | returned => cases g <;> simp [phaseOK] at hph
    | panicked => cases g <;> simp [phaseOK] at hph
    | check =>
      exact can_move (Tid.task i0) σ (by simp [step, hdead, ht0, stepTask_check, hrun])
    | sending =>
      cases g <;> simp [phaseOK] at hph
      exact can_move (Tid.task i0) σ (by simp [step, hdead, ht0, stepTask_sending, hgs, deliver])
    | leaving =>
      exact can_move (Tid.task i0) σ (by simp [step, hdead, ht0, stepTask_leaving, hl])
    | awaiting =>
      cases g with
      | waiting => simp [phaseOK] at hph
      | notify q =>
        simp only [phaseOK] at hph
        subst hph
        exact can_move (Tid.task i0) σ (by simp [step, hdead, ht0, stepTask_awaiting, hgs, collect])
      | handling h1 q =>
        have hmem := payload_mem ps σ.tasks i0 _ hpay ht0
        simp only [phaseOK] at hph
        obtain ⟨rfl, rfl⟩ := hph
        exact can_move (Tid.listener 0) σ (by
          simp [step, hdead, stepListener, hgs, stepPc, hret q hmem])
      | got q =>
        by_cases h1 : q.isNil = true
        · exact can_move (Tid.listener 0) σ (by simp [step, hdead, stepListener, hgs, stepPc, h1])
        · by_cases h2 : q.isQ = true
          · exact can_move (Tid.listener 0) σ (by
              simp [step, hdead, stepListener, hgs, stepPc, h1, h2])
          · exact can_move (Tid.listener 0) σ (by
              simp [step, hdead, stepListener, hgs, stepPc, h1, h2, hh])

theorem run_append (a b : List Tid) (σ : Sys H) : run (a ++ b) σ = run b (run a σ) := by
  simp [run, List.foldl_append]

/-- From every state of the invariant some schedule lets every task return. -/
theorem Good_finish (h : H) (ps : List Value)
    (hps : ∀ p ∈ ps, p ≠ Value.nil ∧ p ≠ runeQ)
    (hret : ∀ p ∈ ps, Handler.call h p = Effect.returns) (n : Nat) :
    ∀ σ : Sys H, remaining σ ≤ n → Good h ps σ → ∃ sched, allReturned (run sched σ) := by
  induction n with
  | zero =>
    intro σ hn hg
    rcases Good_progress h ps hret σ hg with hall | ⟨t, σ1, hs⟩
    · exact ⟨[], hall⟩
    · have := step_remaining t σ σ1 hs
      omega
  | succ n ih =>
    intro σ hn hg
    rcases Good_progress h ps hret σ hg with hall | ⟨t, σ1, hs⟩
    · exact ⟨[], hall⟩
    · have hlt := step_remaining t σ σ1 hs
      obtain ⟨sched, hfin⟩ := ih σ1 (by omega) (Good_step h ps hps hret t σ σ1 hg hs)
      refine ⟨t :: sched, ?_⟩
      simpa [run, hs] using hfin

omit [Handler H] in
theorem callCount_eq_calls (log : List (Event H)) :
    callCount log = calls (fun _ => true) log := by
  induction log with
  | nil => rfl
  | cons e log ih =>
    cases e <;> simp [callCount, calls, List.countP_cons] at ih ⊢ <;> exact ih

omit [Handler H] in
theorem Good_counts (h : H) (ps : List Value) (σ : Sys H) (hg : Good h ps σ)
    (P : Value → Bool) :
    returnedTasks P σ ≤ backs P σ.st.log ∧ backs P σ.st.log ≤ calls P σ.st.log ∧
      calls P σ.st.log ≤ ps.countP P := by
  obtain ⟨hdead, hrun, hh, hpay, hby, hshape⟩ := hg
  have hle : ∀ tasks : List Task, tasks.map (fun t => t.p) = ps →
      tasks.countP (fun t => decide (t.pc = CPc.returned) && P t.p) ≤ ps.countP P := by
    intro tasks hmap
    rw [← hmap, List.countP_map]
    apply List.countP_mono_left
    intro x _ hx
    simp only [Bool.and_eq_true, decide_eq_true_eq] at hx
    simpa using hx.2
  rcases hshape with ⟨hl, hgs, hrest, hin, hcnt⟩ |
    ⟨hl, i0, t0, g, ht0, hrest, hgs, hph, hin, hcnt⟩
  · obtain ⟨hc, hb⟩ := hcnt P
    rw [hc, hb]
    exact ⟨Nat.le_refl _, Nat.le_refl _, hle σ.tasks hpay⟩
  · obtain ⟨hc, hb⟩ := hcnt P
    have hnr : t0.pc ≠ CPc.returned := by
      intro hpc
      obtain ⟨p, pc⟩ := t0
      simp only at hpc
      subst hpc
      cases g <;> simp [phaseOK] at hph
    have hset := countP_set (fun t : Task => decide (t.pc = CPc.returned) && P t.p) σ.tasks i0
      t0 { p := t0.p, pc := CPc.returned } ht0
    simp only [hnr, decide_False, Bool.false_and, Bool.false_eq_true, if_false, Nat.add_zero,
      decide_True, Bool.true_and] at hset
    have hmap : (σ.tasks.set i0 { p := t0.p, pc := CPc.returned }).map (fun t => t.p) = ps := by
      rw [← hpay]
      exact map_set_same _ _ _ _ _ ht0 rfl
    have hbound := hle _ hmap
    have hch : handled t0 g = true → called t0 g = true := by
      obtain ⟨p, pc⟩ := t0
      cases pc <;> cases g <;> simp [handled, called]
    rw [hc, hb]
    simp only [returnedTasks]
    refine ⟨by omega, ?_, ?_⟩
    · cases hP : P t0.p <;> cases hhd : handled t0 g <;> cases hcl : called t0 g <;>
        simp_all
    · cases hP : P t0.p <;> cases hcl : called t0 g <;> simp_all

omit [Handler H] in
theorem Good_all_returned (h : H) (ps : List Value) (σ : Sys H) (hg : Good h ps σ)
    (hall : allReturned σ) :
    (∀ P, calls P σ.st.log = ps.countP P) ∧ callCount σ.st.log = ps.length ∧
      σ.st = { running := true, locked := false, handler := some h, goroutines := [Pc.waiting],
               log := σ.st.log } := by
  obtain ⟨hdead, hrun, hh, hpay, hby, hshape⟩ := hg
  rcases hshape with ⟨hl, hgs, hrest, hin, hcnt⟩ |
    ⟨hl, i0, t0, g, ht0, hrest, hgs, hph, hin, hcnt⟩
  · have hcalls : ∀ P, calls P σ.st.log = ps.countP P := by
      intro P
      rw [(hcnt P).1, ← hpay, List.countP_map, returnedTasks]
      apply List.countP_congr
      intro x hx
      simp [hall x hx]
    refine ⟨hcalls, ?_, ?_⟩
    · rw [callCount_eq_calls, hcalls]
      simp
    · cases hst : σ.st with
      | mk r l hd gs lg =>
        rw [hst] at hrun hl hh hgs
        simp only at hrun hl hh hgs
        subst hrun hl hh hgs
        rfl
  · have hret := hall t0 (List.mem_iff_getElem?.mpr ⟨i0, ht0⟩)
    obtain ⟨p, pc⟩ := t0
    simp only at hret
    subst hret
    cases g <;> simp [phaseOK] at hph

/-- The two views agree: when the handler returns on `p`, one task running
`Catch(p)` step by step against a single waiting listener ends in the state
the sequential `Catch p` returns. -/
theorem run_single_eq_Catch (p : Value) (h : H) (s : State H) (hl : s.locked = false)
    (hr : s.running = true) (hh : s.handler = some h) (hg : s.goroutines = [Pc.waiting])
    (hret : Handler.call h p = Effect.returns) :
    Catch p s = Result.ok ()
        (run [Tid.task 0, Tid.task 0, Tid.task 0, Tid.listener 0, Tid.listener 0,
            Tid.task 0, Tid.task 0]
          { st := s, tasks := [{ p := p, pc := CPc.start }], dead := false }).st ∧
      (run [Tid.task 0, Tid.task 0, Tid.task 0, Tid.listener 0, Tid.listener 0,
            Tid.task 0, Tid.task 0]
          { st := s, tasks := [{ p := p, pc := CPc.start }], dead := false }).tasks =
        [{ p := p, pc := CPc.returned }] := by
  have hlive : Live s := ⟨⟨hl, by simp [hg]⟩, hr, by simp [hg]⟩
  rw [Catch_live p s hlive]
  cases s with
  | mk r l hd gs lg =>
    simp only at hl hr hh hg
    subst hl hr hh hg
    by_cases h1 : p.isNil = true
    · simp [run, step, stepTask_start, stepTask_check, stepTask_sending, stepTask_awaiting,
        stepTask_leaving, stepListener, stepPc, deliver, collect, h1]
    · by_cases h2 : p.isQ = true
      · simp [run, step, stepTask_start, stepTask_check, stepTask_sending, stepTask_awaiting,
          stepTask_leaving, stepListener, stepPc, deliver, collect, h1, h2]
      · simp [run, step, stepTask_start, stepTask_check, stepTask_sending, stepTask_awaiting,
          stepTask_leaving, stepListener, stepPc, deliver, collect, h1, h2, hret]

end Basic

/-! ## Claims -/

section Claims

variable {H : Type} [Handler H]

/-- C2: for every non-nil handler `h`, when the listener is running (flag set,
a listener goroutine waiting), `Catch(nil)` returns normally, the handler is
not called (the only events are the receipt of nil and the completion
signal), and the flag, the handler, the mutex and the listener goroutines
are unchanged. -/
theorem C2_catch_nil_is_noop (h : H) (s : State H) (hs : Live s)
    (hh : s.handler = some h) :
    Catch Value.nil s =
        Result.ok () { s with log := s.log ++ [Event.recv Value.nil, Event.signal] } ∧
      callCount (s.log ++ [Event.recv Value.nil, Event.signal]) = callCount s.log ∧
      Live { s with log := s.log ++ [Event.recv Value.nil, Event.signal] } ∧
      ({ s with log := s.log ++ [Event.recv Value.nil, Event.signal] } : State H).handler
        = some h := by
  refine ⟨?_, ?_, ⟨⟨hs.1.1, hs.1.2⟩, hs.2.1, hs.2.2⟩, hh⟩
  · rw [Catch_live Value.nil s hs]
    simp [Value.isNil]
  · simp [callCount_append, callCount]

/-- C2 in the state reached by `Register(7); Listen()` from program start. -/
theorem C2_catch_nil_is_noop_witness :
    Catch Value.nil
        { running := true, locked := false, handler := some 7, goroutines := [Pc.waiting],
          log := [Event.spawn (some 7)] } =
      Result.ok ()
        { running := true, locked := false, handler := some 7, goroutines := [Pc.waiting],
          log := [Event.spawn (some 7)] ++ [Event.recv Value.nil, Event.signal] } :=
  (C2_catch_nil_is_noop 7
    { running := true, locked := false, handler := some 7, goroutines := [Pc.waiting],
      log := [Event.spawn (some 7)] }
    ⟨⟨rfl, by simp⟩, rfl, by simp⟩ rfl).1

/-- C3: for every payload `v` (nil included) and every state in which the
running flag is clear (and no other call holds the mutex), `Catch(v)` panics
with the usage message and leaves the whole state as it was: no event is
produced (nothing is sent, the handler is not called) and the handler and the
flag are unchanged. -/
theorem C3_catch_when_stopped_panics (v : Value) (s : State H) (hl : s.locked = false)
    (hr : s.running = false) :
    Catch v s = Result.panic
      "safe: package not running, call safe.Register and safe.Listen() first" s :=
  Catch_stopped v s hl hr

/-- C3 on the scenario of `TestCatch`: `Register(h); Close(); Catch(nil)`. -/
theorem C3_catch_when_stopped_panics_witness :
    (Register (some 7) >>= fun _ => Close) (State.init Nat) =
      Result.ok () { State.init Nat with handler := some 7 } ∧
    Catch Value.nil { State.init Nat with handler := some 7 } =
      Result.panic "safe: package not running, call safe.Register and safe.Listen() first"
        { State.init Nat with handler := some 7 } :=
  ⟨rfl, C3_catch_when_stopped_panics Value.nil { State.init Nat with handler := some 7 }
    rfl rfl⟩

/-- C4: when no handler is stored, `Listen()` returns the error
"safe: panic handler not set" and leaves the whole state as it was (no
goroutine started, flag and handler unchanged); in the states a sequential
program reaches (program start, after `Register(nil)`, ...) the flag is then
clear; conversely `Listen()` returns that error only when the stored handler
is nil. -/
theorem C4_listen_without_handler (s : State H) :
    (s.locked = false → s.handler = none →
      Listen s = Result.ok (some "safe: panic handler not set") s) ∧
    (Reachable s → s.handler = none →
      Listen s = Result.ok (some "safe: panic handler not set") s ∧ s.running = false) ∧
    (∀ s1, Listen s = Result.ok (some "safe: panic handler not set") s1 →
      s.handler = none) := by
  have key : s.locked = false → s.handler = none →
      Listen s = Result.ok (some "safe: panic handler not set") s := by
    intro hl hh
    rw [Listen_eq s hl]
    simp [hh]
  refine ⟨key, ?_, ?_⟩
  · intro hreach hh
    have hi := Reachable_inv s hreach
    refine ⟨key hi.1.1 hh, ?_⟩
    cases hr : s.running with
    | false => rfl
    | true => exact absurd hh (hi.2.2.2.1 hr)
  · intro s1 h1
    cases hl : s.locked with
    | true =>
      rw [Listen_locked s hl] at h1
      simp at h1
    | false =>
      rw [Listen_eq s hl] at h1
      cases hh : s.handler with
      | none => rfl
      | some h0 =>
        cases hr : s.running <;> simp [hh, hr] at h1

/-- C4 at program start and after `Register(nil)`. -/
theorem C4_listen_without_handler_witness :
    Listen (State.init Nat) =
      Result.ok (some "safe: panic handler not set") (State.init Nat) ∧
    Register none (State.init Nat) = Result.ok true (State.init Nat) :=
  ⟨(C4_listen_without_handler (State.init Nat)).1 rfl rfl, rfl⟩

/-- C5: for every non-nil handler `h`, once `Register(h)` has returned, the
first `Listen()` returns no error, starts one listener goroutine and sets the
running flag; a second `Listen()`, issued at once or after further completed
`Catch` and `Listen` calls (no `Close`, no `Register`), returns the error
"safe: package already running, close it first" and leaves the whole state as
it was (no second goroutine, still running, same handler). -/
theorem C5_second_listen_fails (h : H) (s s1 : State H) (hs : Idle s)
    (hreg : Register (some h) s = Result.ok true s1) :
    ∃ s2, Listen s1 = Result.ok none s2 ∧
      s2 = { s1 with running := true,
                     goroutines := s1.goroutines ++ [Pc.waiting],
                     log := s1.log ++ [Event.spawn (some h)] } ∧
      s2.running = true ∧ s2.handler = some h ∧
      Listen s2 = Result.ok (some "safe: package already running, close it first") s2 ∧
      ∀ (ops : List (Op H)) (s3 : State H),
        (∀ op ∈ ops, (∃ p, op = Op.Catch p) ∨ op = Op.Listen) →
        runOps ops s2 = some s3 →
        Listen s3 = Result.ok (some "safe: package already running, close it first") s3 ∧
          s3.running = true ∧ s3.handler = some h := by
  obtain ⟨-, hi1, hr1, hh1, -, -⟩ := Register_returns (some h) s s1 true hs hreg
  have hidle2 : Idle { s1 with running := true,
                               goroutines := s1.goroutines ++ [Pc.waiting],
                               log := s1.log ++ [Event.spawn (some h)] } := by
    refine ⟨hi1.1, ?_⟩
    intro g hg
    simp only [List.mem_append, List.mem_singleton] at hg
    rcases hg with hg | hg
    · exact hi1.2 g hg
    · exact hg
  refine ⟨_, ?_, rfl, rfl, hh1, ?_, ?_⟩
  · rw [Listen_eq s1 hi1.1]
    simp [hh1, hr1]
  · rw [Listen_eq _ hidle2.1]
    simp [hh1]
  · intro ops s3 hops hrun
    obtain ⟨hi3, hr3, hh3⟩ := runOps_keeps_running h ops _ s3 hops ⟨hidle2, rfl, hh1⟩ hrun
    refine ⟨?_, hr3, hh3⟩
    rw [Listen_eq s3 hi3.1]
    simp [hh3, hr3]

/-- C5 at program start with handler `7`: `Listen(); Listen()`, and
`Listen(); Catch("a"); Listen()`. -/
theorem C5_second_listen_fails_witness :
    Listen { running := true, locked := false, handler := some 7,
             goroutines := [Pc.waiting], log := [Event.spawn (some 7)] } =
      Result.ok (some "safe: package already running, close it first")
        { running := true, locked := false, handler := some 7,
          goroutines := [Pc.waiting], log := [Event.spawn (some 7)] } ∧
    Listen { running := true, locked := false, handler := some 7,
             goroutines := [Pc.waiting],
             log := [Event.spawn (some 7), Event.recv (Value.string "a"),
                     Event.call 7 (Value.string "a"), Event.back 7 (Value.string "a"),
                     Event.signal] } =
      Result.ok (some "safe: package already running, close it first")
        { running := true, locked := false, handler := some 7,
          goroutines := [Pc.waiting],
          log := [Event.spawn (some 7), Event.recv (Value.string "a"),
                  Event.call 7 (Value.string "a"), Event.back 7 (Value.string "a"),
                  Event.signal] } := by
  obtain ⟨s2, h1, h2, -, -, h5, h6⟩ :=
    C5_second_listen_fails 7 (State.init Nat) { State.init Nat with handler := some 7 }
      ⟨rfl, by simp [State.init]⟩ rfl
  subst h2
  exact ⟨h5, (h6 [Op.Catch (Value.string "a")] _ (by simp) rfl).1⟩

/-- C6: in an idle state, `Close()` with the running flag clear returns and
leaves the whole state as it was; with the flag set and a listener alive it
returns after the listener has received `'Q'`, signalled and returned, without
any call of the handler, and leaves the flag clear and the handler unchanged;
in both cases `Close(); Close()` ends in the same state as one `Close()`. -/
theorem C6_close_idempotent (s : State H) (hs : Idle s) :
    (s.running = false → Close s = Result.ok () s) ∧
    (Live s → Close s = Result.ok ()
        { s with running := false, goroutines := s.goroutines.tail,
                 log := s.log ++ [Event.recv runeQ, Event.signal, Event.quit] } ∧
      callCount (s.log ++ [Event.recv runeQ, Event.signal, Event.quit]) = callCount s.log) ∧
    (s.running = false ∨ Live s → (Close >>= fun _ => Close) s = Close s) := by
  refine ⟨Close_stopped s hs.1, fun hl => ⟨Close_live s hl, ?_⟩, ?_⟩
  · simp [callCount_append, callCount]
  · intro h
    rcases h with hr | hl
    · simp [bind_eq, Go.bind, Close_stopped s hs.1 hr]
    · have h2 : Close { s with running := false, goroutines := s.goroutines.tail,
                                 log := s.log ++ [Event.recv runeQ, Event.signal, Event.quit] } =
          Result.ok () { s with running := false, goroutines := s.goroutines.tail,
                                log := s.log ++ [Event.recv runeQ, Event.signal, Event.quit] } :=
        Close_stopped _ hs.1 rfl
      simp [bind_eq, Go.bind, Close_live s hl, h2]

/-- C6 on a running listener, and at program start. -/
theorem C6_close_idempotent_witness :
    (Close >>= fun _ => Close)
        { running := true, locked := false, handler := some 7, goroutines := [Pc.waiting],
          log := [Event.spawn (some 7)] } =
      Close { running := true, locked := false, handler := some 7, goroutines := [Pc.waiting],
              log := [Event.spawn (some 7)] } ∧
    Close (State.init Nat) = Result.ok () (State.init Nat) :=
  ⟨(C6_close_idempotent
      { running := true, locked := false, handler := some 7, goroutines := [Pc.waiting],
        log := [Event.spawn (some 7)] } ⟨rfl, by simp⟩).2.2
      (Or.inr ⟨⟨rfl, by simp⟩, rfl, by simp⟩),
   (C6_close_idempotent (State.init Nat) ⟨rfl, by simp [State.init]⟩).1 rfl⟩

/-- C7 fails on the code: the calls `Register(0); Listen(); Catch('Q')` all
return and leave the running flag set with no listener goroutine alive; in
that state `Register(1)` never returns, it blocks in `Close` at `pending <- 'Q'`
while holding the mutex. -/
theorem C7_register_blocks_after_catch_Q :
    runOps [Op.Register (some 0), Op.Listen, Op.Catch runeQ] (State.init Nat) =
      some { running := true, locked := false, handler := some 0, goroutines := [],
             log := [Event.spawn (some 0), Event.recv runeQ, Event.signal, Event.quit] } ∧
    Register (some 1)
        { running := true, locked := false, handler := some 0, goroutines := [],
          log := [Event.spawn (some 0), Event.recv runeQ, Event.signal, Event.quit] } =
      Result.blocked
        { running := true, locked := true, handler := some 0, goroutines := [],
          log := [Event.spawn (some 0), Event.recv runeQ, Event.signal, Event.quit] } :=
  ⟨rfl, rfl⟩

/-- C8, as stated, fails in three ways.  With a nil payload: two tasks call
`Catch(nil)` and `Catch("a")` against a running listener; both calls return,
and the handler has been called once, not twice.  With a handler that panics:
the process dies inside the first handler call, no call returns and nobody can
move.  With a handler that calls `Catch` again: the listener stays inside the
handler, no call returns and nobody can move. -/
theorem C8_counterexample :
    run [Tid.task 0, Tid.task 0, Tid.task 0, Tid.listener 0, Tid.task 0, Tid.task 0,
         Tid.task 1, Tid.task 1, Tid.task 1, Tid.listener 0, Tid.listener 0, Tid.task 1,
         Tid.task 1] (Sys.start 7 [Value.nil, Value.string "a"]) =
      { st := { running := true, locked := false, handler := some 7,
                goroutines := [Pc.waiting],
                log := [Event.recv Value.nil, Event.signal, Event.recv (Value.string "a"),
                        Event.call 7 (Value.string "a"), Event.back 7 (Value.string "a"),
                        Event.signal] },
        tasks := [{ p := Value.nil, pc := CPc.returned },
                  { p := Value.string "a", pc := CPc.returned }],
        dead := false } ∧
    callCount [Event.recv Value.nil, Event.signal, Event.recv (Value.string "a"),
               Event.call 7 (Value.string "a"), Event.back 7 (Value.string "a"),
               Event.signal] = 1 ∧
    run [Tid.task 0, Tid.task 0, Tid.task 0, Tid.listener 0, Tid.listener 0]
        (Sys.start Faulty.panicking [Value.string "a", Value.string "b"]) =
      { st := { running := true, locked := true, handler := some Faulty.panicking,
                goroutines := [Pc.handling Faulty.panicking (Value.string "a")],
                log := [Event.recv (Value.string "a"),
                        Event.call Faulty.panicking (Value.string "a")] },
        tasks := [{ p := Value.string "a", pc := CPc.awaiting },
                  { p := Value.string "b", pc := CPc.start }],
        dead := true } ∧
    (∀ t, step t (run [Tid.task 0, Tid.task 0, Tid.task 0, Tid.listener 0, Tid.listener 0]
        (Sys.start Faulty.panicking [Value.string "a", Value.string "b"])) = none) ∧
    run [Tid.task 0, Tid.task 0, Tid.task 0, Tid.listener 0]
        (Sys.start Faulty.reentrant [Value.string "a", Value.string "b"]) =
      { st := { running := true, locked := true, handler := some Faulty.reentrant,
                goroutines := [Pc.handling Faulty.reentrant (Value.string "a")],
                log := [Event.recv (Value.string "a"),
                        Event.call Faulty.reentrant (Value.string "a")] },
        tasks := [{ p := Value.string "a", pc := CPc.awaiting },
                  { p := Value.string "b", pc := CPc.start }],
        dead := false } ∧
    (∀ t, step t (run [Tid.task 0, Tid.task 0, Tid.task 0, Tid.listener 0]
        (Sys.start Faulty.reentrant [Value.string "a", Value.string "b"])) = none) := by
  refine ⟨rfl, rfl, rfl, ?_, rfl, ?_⟩
  · intro t
    rfl
  · intro t
    cases t with
    | task i =>
      match i with
      | 0 => rfl
      | 1 => rfl
      | (k + 2) => rfl
    | listener j =>
      match j with
      | 0 => rfl
      | (k + 1) => rfl

/-- C8 (amended): let any number of tasks call `Catch` concurrently against a
running listener with handler `h`, with payloads `ps` none of which is nil or
the rune `'Q'` and on each of which the call of `h` returns (it does not panic
and does not call the package).  In the state `σ` reached by any schedule:
handler calls do not overlap and a single listener exists; every handler call
is a call of `h`; for every property `P` of payloads, the returned calls with
a payload in `P` are at most the handler returns with an argument in `P`
(a call returns only after the handler has returned for its payload), these
are at most the handler calls with an argument in `P`, and these are at most
the `Catch` calls with a payload in `P` (no duplicate); once every call has
returned the handler has been called exactly once per `Catch` call and the
listener is running as before; no state is a deadlock, every step lowers the
bound `remaining`, and some schedule lets every call return. -/
theorem C8_concurrent_catch_each_served_once (h : H) (ps : List Value)
    (hps : ∀ p ∈ ps, p ≠ Value.nil ∧ p ≠ runeQ)
    (hret : ∀ p ∈ ps, Handler.call h p = Effect.returns) (sched : List Tid) (σ : Sys H)
    (hσ : σ = run sched (Sys.start h ps)) :
    (∃ b, inCall σ.st.log = some b) ∧ σ.st.goroutines.length = 1 ∧
    (∀ h1 v, Event.call h1 v ∈ σ.st.log → h1 = h) ∧
    (∀ P, returnedTasks P σ ≤ backs P σ.st.log ∧ backs P σ.st.log ≤ calls P σ.st.log ∧
      calls P σ.st.log ≤ ps.countP P) ∧
    (allReturned σ →
      (∀ P, calls P σ.st.log = ps.countP P) ∧ callCount σ.st.log = ps.length ∧
      σ.st = { running := true, locked := false, handler := some h,
               goroutines := [Pc.waiting], log := σ.st.log }) ∧
    (allReturned σ ∨ ∃ t σ1, step t σ = some σ1) ∧
    (∀ t σ1, step t σ = some σ1 → remaining σ1 < remaining σ) ∧
    (∃ more, allReturned (run more σ)) := by
  have hg : Good h ps σ := by
    rw [hσ]
    exact Good_run h ps hps hret sched _ (Good_start h ps)
  refine ⟨?_, ?_, hg.2.2.2.2.1, Good_counts h ps σ hg, Good_all_returned h ps σ hg,
    Good_progress h ps hret σ hg, fun t σ1 hs => step_remaining t σ σ1 hs,
    Good_finish h ps hps hret (remaining σ) σ (Nat.le_refl _) hg⟩
  · rcases hg.2.2.2.2.2 with ⟨-, -, -, hin, -⟩ | ⟨-, i0, t0, g, -, -, -, -, hin, -⟩
    · exact ⟨_, hin⟩
    · exact ⟨_, hin⟩
  · rcases hg.2.2.2.2.2 with ⟨-, hgs, -, -, -⟩ | ⟨-, i0, t0, g, -, -, hgs, -, -, -⟩
    · simp [hgs]
    · simp [hgs]

/-- C8 (amended) on two tasks, `Catch("a")` and `Catch(42)`, the second one
taking the mutex first: both return and the handler has been called twice. -/
theorem C8_concurrent_catch_each_served_once_witness :
    (∀ p ∈ [Value.string "a", Value.int 42], p ≠ Value.nil ∧ p ≠ runeQ) ∧
    (∀ p ∈ [Value.string "a", Value.int 42], Handler.call (7 : Nat) p = Effect.returns) ∧
    callCount (run [Tid.task 1, Tid.task 0, Tid.task 1, Tid.task 1, Tid.listener 0,
        Tid.task 0, Tid.listener 0, Tid.task 1, Tid.task 1, Tid.task 0, Tid.task 0,
        Tid.task 0, Tid.listener 0, Tid.listener 0, Tid.task 0, Tid.task 0]
        (Sys.start 7 [Value.string "a", Value.int 42])).st.log = 2 :=
  ⟨by decide, fun _ _ => rfl,
   ((C8_concurrent_catch_each_served_once 7 [Value.string "a", Value.int 42] (by decide)
      (fun _ _ => rfl)
      [Tid.task 1, Tid.task 0, Tid.task 1, Tid.task 1, Tid.listener 0,
        Tid.task 0, Tid.listener 0, Tid.task 1, Tid.task 1, Tid.task 0, Tid.task 0,
        Tid.task 0, Tid.listener 0, Tid.listener 0, Tid.task 0, Tid.task 0]
      _ rfl).2.2.2.2.1 (by unfold allReturned; decide)).2.1⟩

/-- C9 fails on the code: the state reached by the completed calls
`Register(0); Listen(); Catch('Q')` has the running flag set although the
listener goroutine has returned (it was not stopped by `Close`). -/
theorem C9_flag_set_without_listener :
    ∃ s : State Nat, Reachable s ∧ s.running = true ∧ s.goroutines = [] ∧
      s.log = [Event.spawn (some 0), Event.recv runeQ, Event.signal, Event.quit] :=
  ⟨{ running := true, locked := false, handler := some 0, goroutines := [],
     log := [Event.spawn (some 0), Event.recv runeQ, Event.signal, Event.quit] },
   ⟨[Op.Register (some 0), Op.Listen, Op.Catch runeQ], rfl⟩, rfl, rfl, rfl⟩

/-- C10: in every state reached from program start by completed calls of
`Register`, `Listen`, `Catch` and `Close`, the running flag set implies a
non-nil stored handler, and the stored handler is the one given to the most
recent `Register`; no call of `Catch`, `Close` or `Register` there ends in a
call of a nil handler (a fatal error); and every handler call made during a
`Catch(p)` that returns has argument `p` and is a call of the handler of the
most recent `Register`, which is also the handler that was stored when the
listener was started. -/
theorem C10_running_implies_handler (ops : List (Op H)) (s : State H)
    (hrun : runOps ops (State.init H) = some s) :
    (s.running = true → s.handler ≠ none) ∧
    s.handler = lastRegistered ops ∧
    (∀ p msg s1, Catch p s ≠ Result.fatal msg s1) ∧
    (∀ msg s1, Close s ≠ Result.fatal msg s1) ∧
    (∀ h msg s1, Register h s ≠ Result.fatal msg s1) ∧
    (∀ p s1, Catch p s = Result.ok () s1 →
      ∃ evs, s1.log = s.log ++ evs ∧
        ∀ h v, Event.call h v ∈ evs →
          v = p ∧ lastRegistered ops = some h ∧ lastSpawn s.log = some (some h)) := by
  obtain ⟨hi, hlast⟩ := runOps_inv ops _ s Inv_init hrun
  have hlast1 : s.handler = lastRegistered ops := hlast
  have hl : s.locked = false := hi.1.1
  have hh := hi.2.2.2.1
  have hsp := hi.2.2.2.2
  refine ⟨hh, hlast1, ?_, ?_, ?_, ?_⟩
  · intro p msg s1
    rcases Inv_cases s hi with ⟨hr, hg⟩ | ⟨hlive, hg⟩ | ⟨hr, hg⟩
    · simp [Catch_stopped p s hl hr]
    · rw [Catch_live p s hlive]
      cases hhd : s.handler with
      | none => exact absurd hhd (hh hlive.2.1)
      | some h0 =>
        by_cases h1 : p.isNil = true
        · simp [h1]
        · by_cases h2 : p.isQ = true
          · simp [h1, h2]
          · cases hcall : Handler.call h0 p <;> simp [h1, h2, hcall]
    · simp [Catch_dead p s hl hr hg]
  · intro msg s1
    rcases Inv_cases s hi with ⟨hr, hg⟩ | ⟨hlive, hg⟩ | ⟨hr, hg⟩
    · simp [Close_stopped s hl hr]
    · simp [Close_live s hlive]
    · simp [Close_dead s hl hr hg]
  · intro h msg s1
    rcases Inv_cases s hi with ⟨hr, hg⟩ | ⟨hlive, hg⟩ | ⟨hr, hg⟩
    · simp [Register_stopped h s hl hr]
    · simp [Register_live h s hlive]
    · simp [Register_dead h s hl hr hg]
  · intro p s1 hc
    rcases Inv_cases s hi with ⟨hr, hg⟩ | ⟨hlive, hg⟩ | ⟨hr, hg⟩
    · simp [Catch_stopped p s hl hr] at hc
    · rw [Catch_live p s hlive] at hc
      have hsp1 := hsp (by simp [hg])
      cases hhd : s.handler with
      | none => exact absurd hhd (hh hlive.2.1)
      | some h0 =>
        rw [hhd] at hlast1 hsp1
        by_cases h1 : p.isNil = true
        · simp [h1] at hc
          subst hc
          exact ⟨_, rfl, by simp⟩
        · by_cases h2 : p.isQ = true
          · simp [h1, h2] at hc
            subst hc
            exact ⟨_, rfl, by simp⟩
          · cases hcall : Handler.call h0 p with
            | panics => simp [h1, h2, hhd, hcall] at hc
            | hangs => simp [h1, h2, hhd, hcall] at hc
            | returns =>
              simp [h1, h2, hhd, hcall] at hc
              subst hc
              refine ⟨_, rfl, ?_⟩
              intro h v hmem
              simp at hmem
              obtain ⟨rfl, rfl⟩ := hmem
              exact ⟨rfl, hlast1.symm, hsp1⟩
    · simp [Catch_dead p s hl hr hg] at hc

/-- C10 on `Register(1); Register(7); Listen(); Catch("a")`. -/
theorem C10_running_implies_handler_witness :
    runOps [Op.Register (some 1), Op.Register (some 7), Op.Listen,
        Op.Catch (Value.string "a")] (State.init Nat) =
      some { running := true, locked := false, handler := some 7, goroutines := [Pc.waiting],
             log := [Event.spawn (some 7), Event.recv (Value.string "a"),
               Event.call 7 (Value.string "a"), Event.back 7 (Value.string "a"),
               Event.signal] } ∧
    some 7 = lastRegistered [Op.Register (some 1), Op.Register (some 7), Op.Listen,
        Op.Catch (Value.string "a")] :=
  ⟨rfl, (@C10_running_implies_handler Nat inferInstance
    [Op.Register (some 1), Op.Register (some 7), Op.Listen, Op.Catch (Value.string "a")]
    { running := true, locked := false, handler := some 7, goroutines := [Pc.waiting],
      log := [Event.spawn (some 7), Event.recv (Value.string "a"),
        Event.call 7 (Value.string "a"), Event.back 7 (Value.string "a"),
        Event.signal] } rfl).2.1⟩

end Claims

end Safe

